import Mathlib

/-!
# llm-duet: the plan pipeline, the run guard and the review validator

A shallow embedding of `cmd/llm-duet/main.go`.

* The review validator `validateReviewJSON` is embedded over decoded JSON
  documents: `encoding/json` first checks the whole input for syntax and then
  hands sub-documents around as `json.RawMessage`; the embedding starts from
  the document tree that check yields (`none` when the bytes are rejected).
* The pipeline `runPlan` is embedded over an explicit file system (a map from
  path to node) and an explicit record of agent invocations.
-/

namespace LlmDuet

/-! ## JSON documents as seen by `encoding/json` -/

/-- A decoded JSON document. `obj` keeps the members in input order, duplicates
included, because a Go map keeps the last value written for a key. -/
inductive JSON where
  | null : JSON
  | bool (b : Bool) : JSON
  | num (lit : String) : JSON
  | str (s : String) : JSON
  | arr (items : List JSON) : JSON
  | obj (members : List (String × JSON)) : JSON

/-- The Go value `map[string]json.RawMessage` filled from an object: members
are stored in order, so a later duplicate overwrites an earlier one.
`rawField m k` is `m[k]` together with its `ok` flag (`none`: key absent). -/
def rawField (m : List (String × JSON)) (k : String) : Option JSON :=
  m.foldl (fun acc kv => if kv.1 = k then some kv.2 else acc) none

/-- The call `json.Unmarshal(raw, &m)` for `m map[string]json.RawMessage`: an object
fills the map, JSON `null` leaves the map nil (no error), anything else is a
type error (`none`). -/
def unmarshalMap : JSON → Option (List (String × JSON))
  | .obj members => some members
  | .null => some []
  | _ => none

/-- The call `json.Unmarshal(raw, &xs)` for `xs []json.RawMessage`: an array fills the
slice, JSON `null` leaves it nil (no error), anything else is a type error. -/
def unmarshalSlice : JSON → Option (List JSON)
  | .arr items => some items
  | .null => some []
  | _ => none

/-- The call `json.Unmarshal(raw, &s)` for `s string` holding `cur`: a JSON string is
stored, JSON `null` leaves `s` as it was (no error), anything else is a type
error; a nil `RawMessage` (`none`) is a syntax error. -/
def unmarshalString (cur : String) : Option JSON → Option String
  | some (.str s) => some s
  | some .null => some cur
  | _ => none

/-- The test `string(v) == "null"` on a raw message. -/
def isNullLiteral : Option JSON → Bool
  | some .null => true
  | _ => false

/-- The errors `validateReviewJSON` returns, one constructor per message. -/
inductive ValidationError where
  | parse : ValidationError
  | commentsMissing : ValidationError
  | commentsFormat : ValidationError
  | commentParse (i : Nat) : ValidationError
  | keyMissing (i : Nat) (key : String) : ValidationError
  | idInvalid (i : Nat) : ValidationError
  | severityInvalid (i : Nat) : ValidationError
  | severityValue (i : Nat) : ValidationError
  | kindInvalid (i : Nat) : ValidationError
  | kindValue (i : Nat) : ValidationError
  | summaryInvalid (i : Nat) : ValidationError
  | nullableInvalid (i : Nat) (key : String) : ValidationError
  deriving DecidableEq, Repr

deriving instance DecidableEq for Except

/-- The keys of `allowedSeverity`. -/
def allowedSeverity : List String := ["critical", "major", "minor"]

/-- The keys of `allowedKind`. -/
def allowedKind : List String :=
  ["spec_intent", "feature_scope", "api_design", "ux_flow", "performance", "cost", "style_minor"]

/-- The slice `requiredKeys`. -/
def requiredKeys : List String :=
  ["id", "severity", "kind", "summary", "question_to_human", "auto_fix_proposal"]

/-- The slice ranged over by the last loop of the comment check. -/
def nullableKeys : List String := ["question_to_human", "auto_fix_proposal"]

/-- The body of the loop `for i, cRaw := range comments`. -/
def validateComment (i : Nat) (cRaw : JSON) : Except ValidationError Unit :=
  match unmarshalMap cRaw with
  | none => .error (.commentParse i)
  | some cMap =>
    match requiredKeys.find? (fun k => (rawField cMap k).isNone) with
    | some k => .error (.keyMissing i k)
    | none =>
      match unmarshalString "" (rawField cMap "id") with
      | none => .error (.idInvalid i)
      | some id =>
        if id = "" then .error (.idInvalid i) else
        match unmarshalString "" (rawField cMap "severity") with
        | none => .error (.severityInvalid i)
        | some severity =>
          if severity ∉ allowedSeverity then .error (.severityValue i) else
          match unmarshalString "" (rawField cMap "kind") with
          | none => .error (.kindInvalid i)
          | some kind =>
            if kind ∉ allowedKind then .error (.kindValue i) else
            match unmarshalString "" (rawField cMap "summary") with
            | none => .error (.summaryInvalid i)
            | some summary =>
              if summary = "" then .error (.summaryInvalid i) else
              match nullableKeys.find? (fun key =>
                  !isNullLiteral (rawField cMap key) &&
                    (unmarshalString "" (rawField cMap key)).isNone) with
              | some key => .error (.nullableInvalid i key)
              | none => .ok ()

/-- The loop `for i, cRaw := range comments`, from index `i` on. -/
def validateComments : Nat → List JSON → Except ValidationError Unit
  | _, [] => .ok ()
  | i, cRaw :: rest =>
    match validateComment i cRaw with
    | .error e => .error e
    | .ok _ => validateComments (i + 1) rest

/-- The function `validateReviewJSON`, on the document the first
`json.Unmarshal` sees (`none`: the bytes are not valid JSON). -/
def validateReviewDoc : Option JSON → Except ValidationError Unit
  | none => .error .parse
  | some doc =>
    match unmarshalMap doc with
    | none => .error .parse
    | some root =>
      match rawField root "comments" with
      | none => .error .commentsMissing
      | some commentsRaw =>
        match unmarshalSlice commentsRaw with
        | none => .error .commentsFormat
        | some comments => validateComments 0 comments

/-- The function `validateReviewJSON` on bytes; `decode` is the syntax check
and tree building of `encoding/json`. -/
def validateReviewJSON (decode : String → Option JSON) (data : String) :
    Except ValidationError Unit :=
  validateReviewDoc (decode data)

/-! ## Shapes of review comments -/

/-- The member `key` of a comment element (`none` when the element is not an
object or has no such member). -/
def commentField (c : JSON) (key : String) : Option JSON :=
  match c with
  | .obj m => rawField m key
  | _ => none

/-- The value is a JSON string that is one of `allowed`. -/
def isOneOf (allowed : List String) : Option JSON → Bool
  | some (.str s) => decide (s ∈ allowed)
  | _ => false

/-- The value is a non-empty JSON string. -/
def isNonEmptyString : Option JSON → Bool
  | some (.str s) => decide (s ≠ "")
  | _ => false

/-- The value is a JSON string or an explicit JSON null. -/
def isStringOrNull : Option JSON → Bool
  | some (.str _) => true
  | some .null => true
  | _ => false

/-- The element is a JSON object. -/
def isObject : JSON → Bool
  | .obj _ => true
  | _ => false

/-- The element is an object that has all six required keys. -/
def hasRequiredKeys (c : JSON) : Bool :=
  isObject c && requiredKeys.all (fun k => (commentField c k).isSome)

/-- The comment conforms to the wire schema. -/
def conforms (c : JSON) : Bool :=
  hasRequiredKeys c &&
    isNonEmptyString (commentField c "id") &&
    isOneOf allowedSeverity (commentField c "severity") &&
    isOneOf allowedKind (commentField c "kind") &&
    isNonEmptyString (commentField c "summary") &&
    isStringOrNull (commentField c "question_to_human") &&
    isStringOrNull (commentField c "auto_fix_proposal")

/-- The comments of a review document: the elements of the array under the
top-level key `comments` (`none` when the document is not an object with such
an array). -/
def commentsOf : Option JSON → Option (List JSON)
  | some (.obj m) =>
    match rawField m "comments" with
    | some (.arr cs) => some cs
    | _ => none
  | _ => none

/-- The comment has all six keys and legal `severity` and `kind`. -/
def hasKeysAndEnums (c : JSON) : Bool :=
  hasRequiredKeys c &&
    isOneOf allowedSeverity (commentField c "severity") &&
    isOneOf allowedKind (commentField c "kind")

/-- The predicate holds of every comment of the review document (false when
the document is not an object with a `comments` array). -/
def allComments (p : JSON → Bool) (doc : Option JSON) : Bool :=
  match commentsOf doc with
  | some cs => cs.all p
  | none => false

/-! ## The file system -/

/-- What a path names: a regular file with its content, or a directory. -/
inductive Node where
  | file (content : String) : Node
  | dir : Node
  deriving DecidableEq, Repr

/-- The file system: what each path names, if anything. -/
abbrev FS := String → Option Node

namespace FS

/-- The call `os.ReadFile`: the content of a regular file; fails on a missing path
and on a directory. -/
def readFile (fs : FS) (path : String) : Option String :=
  match fs path with
  | some (.file content) => some content
  | _ => none

/-- The calls `os.WriteFile` and `os.Create` (with the content written afterwards):
create or truncate; fails when the path names a directory. The parent
directory is not looked at: the program writes only in the working directory
and in directories it has made with `os.MkdirAll` just before, and a statement
about a single write names the parent as a directory in its hypotheses. -/
def writeFile (fs : FS) (path content : String) : Option FS :=
  match fs path with
  | some .dir => none
  | _ => some (Function.update fs path (some (.file content)))

/-- The statement `_ = os.Remove(path)`, the error dropped: a regular file is unlinked. -/
def remove (fs : FS) (path : String) : FS :=
  match fs path with
  | some (.file _) => Function.update fs path none
  | _ => fs

/-- The call `os.MkdirAll` on a path given with its chain of parents (the path first,
then `filepath.Dir` of it, and so on up to the working directory): an
existing directory is accepted at once, an existing file is an error,
otherwise the parents are made and then the directory itself. -/
def mkdirAll (fs : FS) : List String → Option FS
  | [] => some fs
  | path :: parents =>
    match fs path with
    | some .dir => some fs
    | some (.file _) => none
    | none =>
      match mkdirAll fs parents with
      | none => none
      | some fs1 => some (Function.update fs1 path (some .dir))

end FS

/-- The call `filepath.Join` of a clean directory path and a file name. -/
def filepathJoin (dir name : String) : String := dir ++ "/" ++ name

/-- The directory `.llm-duet`. -/
def base : String := ".llm-duet"
/-- The scratch directory. -/
def workspace : String := filepathJoin base "workspace"
/-- The guard marker. -/
def lockPath : String := filepathJoin workspace "lock"
/-- The plan document. -/
def planPath : String := "plan.md"
/-- The planner round input. -/
def plannerInput : String := filepathJoin workspace "planner_input.txt"
/-- The first generation of the initial flow. -/
def draftPath : String := filepathJoin workspace "plan_draft.md"
/-- The review of the draft (initial flow). -/
def reviewDraftPath : String := filepathJoin workspace "review_draft.json"
/-- The final generation. -/
def generatedPath : String := filepathJoin workspace "plan_generated.md"
/-- The reviewer round input. -/
def reviewerInput : String := filepathJoin workspace "reviewer_input.txt"
/-- The review of the existing plan (update flow). -/
def reviewPath : String := filepathJoin workspace "review.json"
/-- The snapshot of the existing plan (update flow). -/
def prevPath : String := filepathJoin workspace "plan_prev.md"
/-- The reviewer prompt file, `filepath.Join(".llm-duet", "prompts", "reviewer.txt")`. -/
def reviewerPrompt : String := filepathJoin (filepathJoin base "prompts") "reviewer.txt"

/-! ## Agents, errors and the run state -/

/-- The two external agents. -/
inductive Agent where
  | planner : Agent
  | reviewer : Agent
  deriving DecidableEq, Repr

/-- One invocation of an agent: what it read on standard input, what it
produced (`none`: the reviewer wrote no last message), and whether the
process ended without error. -/
structure Call where
  agent : Agent
  input : String
  output : Option String
  ok : Bool
  deriving DecidableEq, Repr

/-- What one run of `claude -p` does: the text on standard output (captured
into the output file also when the process fails) and the exit status. -/
structure PlannerRun where
  stdout : String
  ok : Bool

/-- What one run of `codex exec --output-last-message PATH` does: the last
message it writes to `PATH`, if it writes one, and the exit status. -/
structure ReviewerRun where
  lastMessage : Option String
  ok : Bool

/-- What the run depends on besides the file system: which executables
`exec.LookPath` finds, how the two agents behave (as a function of the
invocations made so far and of their input), and the JSON decoder. -/
structure Env where
  claudeFound : Bool
  codexFound : Bool
  planner : List Call → String → PlannerRun
  reviewer : List Call → String → ReviewerRun
  decode : String → Option JSON

/-- The errors of `runPlan`; the three `Step` constructors are the
`fmt.Errorf("...: %w", err)` wrappers that name the artifact to inspect. -/
inductive PlanError where
  | notInitialised : PlanError
  | io (path : String) : PlanError
  | claudeNotFound : PlanError
  | codexNotFound : PlanError
  | alreadyRunning : PlanError
  | lockCreate : PlanError
  | ideaConflict : PlanError
  | ideaRequired : PlanError
  | agentExec : PlanError
  | plannerStep (artifact : String) (cause : PlanError) : PlanError
  | reviewerStep (artifact : String) (cause : PlanError) : PlanError
  | reviewInvalid (artifact : String) (cause : ValidationError) : PlanError
  deriving DecidableEq, Repr

/-- The state a run acts on: the file system and the invocations made. -/
structure World where
  fs : FS
  calls : List Call

/-- A step of the pipeline: it returns a value or an error, and the state it
leaves behind in either case. -/
def Step (α : Type) : Type := World → Except PlanError α × World

/-- Sequencing with Go's `if err != nil { return err }`. -/
def Step.bind {α β : Type} (m : Step α) (f : α → Step β) : Step β := fun w =>
  match m w with
  | (.ok a, w1) => f a w1
  | (.error e, w1) => (.error e, w1)

instance : Monad Step where
  pure a := fun w => (.ok a, w)
  bind := Step.bind

/-- Wrap the error of a step, as `fmt.Errorf("...: %w", err)` does. -/
def wrapErr {α : Type} (f : PlanError → PlanError) (m : Step α) : Step α := fun w =>
  match m w with
  | (.ok a, w1) => (.ok a, w1)
  | (.error e, w1) => (.error (f e), w1)

/-- The call `os.ReadFile(path)` as a step. -/
def readFileStep (path : String) : Step String := fun w =>
  match w.fs.readFile path with
  | some content => (.ok content, w)
  | none => (.error (.io path), w)

/-- The call `os.WriteFile(path, content, 0o644)` as a step. -/
def writeFileStep (path content : String) : Step Unit := fun w =>
  match w.fs.writeFile path content with
  | some fs1 => (.ok (), { w with fs := fs1 })
  | none => (.error (.io path), w)

/-! ## The functions of `main.go` -/

/-- The function `fileExists`. -/
def fileExists (fs : FS) (path : String) : Bool := (fs path).isSome

/-- The function `checkCLIs`. -/
def checkCLIs (env : Env) : Except PlanError Unit :=
  if !env.claudeFound then .error .claudeNotFound
  else if !env.codexFound then .error .codexNotFound
  else .ok ()

/-- The function `readOptionalFile`. -/
def readOptionalFile (path : String) : Step String :=
  if path = "" then pure "" else readFileStep path

/-- The function `mergeHint`. -/
def mergeHint (hint hintFile : String) : Step String := do
  let base ← readOptionalFile hintFile
  if hint = "" then pure base
  else if base = "" then pure hint
  else pure (base ++ "\n\n" ++ hint)

/-- The function `copyFile`. -/
def copyFile (src dst : String) : Step Unit := do
  let content ← readFileStep src
  writeFileStep dst content

/-- The text `writePlannerInput` builds. -/
def plannerInputText (ideaText hintText currentPlan reviewJSON : String) : String :=
  let ideaText := if ideaText = "" then "(none)" else ideaText
  let hintText := if hintText = "" then "(none)" else hintText
  let currentPlan := if currentPlan = "" then "(none)" else currentPlan
  let reviewJSON := if reviewJSON = "" then "\x7b\x7d" else reviewJSON
  "--- IDEA ---\n" ++ ideaText ++ "\n\n--- HINT ---\n" ++ hintText ++
    "\n\n--- CURRENT_PLAN ---\n" ++ currentPlan ++ "\n\n--- REVIEW_JSON ---\n" ++ reviewJSON ++ "\n"

/-- The function `writePlannerInput`. -/
def writePlannerInput (path ideaText hintText currentPlan reviewJSON : String) : Step Unit :=
  writeFileStep path (plannerInputText ideaText hintText currentPlan reviewJSON)

/-- The text `writeReviewerInput` builds. -/
def reviewerInputText (promptContent planContent : String) : String :=
  "[REVIEW_PROMPT]\n" ++ promptContent ++ "\n\n--- PLAN_MD ---\n" ++ planContent ++ "\n"

/-- The function `writeReviewerInput`. -/
def writeReviewerInput (path promptPath planPath : String) : Step Unit := do
  let promptContent ← readFileStep promptPath
  let planContent ← readFileStep planPath
  writeFileStep path (reviewerInputText promptContent planContent)

/-- The function `runClaude`: the input file is opened and becomes standard
input, the output file is created (truncated), the planner runs with its
standard output going to that file. -/
def runClaude (env : Env) (inputPath outputPath : String) : Step Unit := fun w =>
  match w.fs.readFile inputPath with
  | none => (.error (.io inputPath), w)
  | some input =>
    match w.fs.writeFile outputPath "" with
    | none => (.error (.io outputPath), w)
    | some fs1 =>
      let run := env.planner w.calls input
      let w1 : World :=
        { fs := Function.update fs1 outputPath (some (.file run.stdout)),
          calls := w.calls ++ [⟨.planner, input, some run.stdout, run.ok⟩] }
      if run.ok then (.ok (), w1) else (.error .agentExec, w1)

/-- The function `runCodex`: the input file is opened and becomes standard
input, standard output is discarded, and the reviewer itself writes its last
message to the output path. -/
def runCodex (env : Env) (inputPath outputPath : String) : Step Unit := fun w =>
  match w.fs.readFile inputPath with
  | none => (.error (.io inputPath), w)
  | some input =>
    let run := env.reviewer w.calls input
    let fs1 : FS :=
      match run.lastMessage with
      | none => w.fs
      | some message => (w.fs.writeFile outputPath message).getD w.fs
    let w1 : World :=
      { fs := fs1, calls := w.calls ++ [⟨.reviewer, input, run.lastMessage, run.ok⟩] }
    if run.ok then (.ok (), w1) else (.error .agentExec, w1)

/-- The call of `validateReviewJSON` with its error wrapper. -/
def validateStep (env : Env) (artifact reviewContent : String) : Step Unit := fun w =>
  match validateReviewJSON env.decode reviewContent with
  | .ok _ => (.ok (), w)
  | .error e => (.error (.reviewInvalid artifact e), w)

/-- The function `runPlanInitial`. -/
def runPlanInitial (env : Env) (ideaText hintText : String) : Step Unit := do
  writePlannerInput plannerInput ideaText hintText "(none)" "\x7b\x7d"
  wrapErr (.plannerStep draftPath) (runClaude env plannerInput draftPath)
  writeReviewerInput reviewerInput reviewerPrompt draftPath
  wrapErr (.reviewerStep reviewDraftPath) (runCodex env reviewerInput reviewDraftPath)
  let reviewContent ← readFileStep reviewDraftPath
  validateStep env reviewDraftPath reviewContent
  let draftContent ← readFileStep draftPath
  writePlannerInput plannerInput ideaText hintText draftContent reviewContent
  wrapErr (.plannerStep generatedPath) (runClaude env plannerInput generatedPath)
  copyFile generatedPath planPath

/-- The function `runPlanUpdate`. -/
def runPlanUpdate (env : Env) (hintText : String) : Step Unit := do
  copyFile planPath prevPath
  writeReviewerInput reviewerInput reviewerPrompt prevPath
  wrapErr (.reviewerStep reviewPath) (runCodex env reviewerInput reviewPath)
  let reviewContent ← readFileStep reviewPath
  validateStep env reviewPath reviewContent
  let prevContent ← readFileStep prevPath
  let hintSection := if hintText = "" then "(none)" else hintText
  writePlannerInput plannerInput "(none)" hintSection prevContent reviewContent
  wrapErr (.plannerStep generatedPath) (runClaude env plannerInput generatedPath)
  copyFile generatedPath planPath

/-- The part of `runPlan` that runs under the guard (from `planPath := ...`
to `success = true`). -/
def runPlanGuarded (env : Env) (idea ideaFile hint hintFile : String) : Step Unit := fun w =>
  let planExists := fileExists w.fs planPath
  if planExists && (idea != "" || ideaFile != "") then (.error .ideaConflict, w)
  else if !planExists && idea == "" && ideaFile == "" then (.error .ideaRequired, w)
  else
    (do
      let ideaText ← if idea = "" then readOptionalFile ideaFile else pure idea
      let hintText ← mergeHint hint hintFile
      if planExists then runPlanUpdate env hintText
      else runPlanInitial env ideaText hintText) w

/-- The function `runPlan`. The deferred function removes the guard marker
exactly when the guarded part has set `success`. -/
def runPlan (env : Env) (idea ideaFile hint hintFile : String) : Step Unit := fun w =>
  match w.fs base with
  | none => (.error .notInitialised, w)
  | some _ =>
    match w.fs.mkdirAll [workspace, base] with
    | none => (.error (.io workspace), w)
    | some fs1 =>
      match checkCLIs env with
      | .error e => (.error e, { w with fs := fs1 })
      | .ok _ =>
        if (fs1 lockPath).isSome then (.error .alreadyRunning, { w with fs := fs1 })
        else
          match fs1.writeFile lockPath "" with
          | none => (.error .lockCreate, { w with fs := fs1 })
          | some fs2 =>
            match runPlanGuarded env idea ideaFile hint hintFile { w with fs := fs2 } with
            | (.ok _, w1) => (.ok (), { w1 with fs := w1.fs.remove lockPath })
            | (.error e, w1) => (.error e, w1)

/-! ## The functions of `main.go`: `init` -/

/-- The errors of `runInit`: a directory could not be made (the wrapper
`failed to create %s`), or a default file could not be written. -/
inductive InitError where
  | mkdir (dir : String) : InitError
  | write (path : String) : InitError
  deriving DecidableEq, Repr

/-- The parents `os.MkdirAll` walks up through, nearest first: the non-empty
proper prefixes of the path that end right before a separator. The first
argument is the prefix read so far, reversed. -/
def parentDirs : List Char → List Char → List String
  | _, [] => []
  | acc, c :: cs =>
    if c = '/' ∧ acc ≠ [] then parentDirs (c :: acc) cs ++ [String.mk acc.reverse]
    else parentDirs (c :: acc) cs

/-- The path with its chain of parents, as `FS.mkdirAll` takes it. -/
def mkdirChain (path : String) : List String := path :: parentDirs [] path.data

/-- The function `enumerateUnique`; the first component is the `seen` set. -/
def enumerateUnique (items : List String) : List String :=
  (items.foldl (fun (acc : List String × List String) item =>
    if item ∈ acc.1 then acc else (item :: acc.1, acc.2 ++ [item])) ([], [])).2

/-- The constant `defaultPlannerPrompt`. -/
def defaultPlannerPrompt : String :=
  "You are the planner role. The input always contains four sections separated by lines that exactly match:\n" ++
    "--- IDEA ---\n" ++
    "--- HINT ---\n" ++
    "--- CURRENT_PLAN ---\n" ++
    "--- REVIEW_JSON ---\n" ++
    "\n" ++
    "Rewrite plan.md by using CURRENT_PLAN as the base, reflecting any constraints or directions in HINT, and addressing feedback inside REVIEW_JSON.\n" ++
    "Respect the overall intent from IDEA when it is provided, avoid expanding scope unnecessarily, and output only the updated plan.md content."

/-- The constant `defaultReviewerPrompt`. -/
def defaultReviewerPrompt : String :=
  "You are the reviewer. After the [REVIEW_PROMPT] marker, review instructions are provided, followed by --- PLAN_MD --- and the body to inspect.\n" ++
    "Respond with JSON that matches the expected schema (comments array with id, severity, kind, summary, question_to_human, auto_fix_proposal fields).\n" ++
    "Focus on clarity, scope control, and actionable feedback."

/-- The function `writeIfNotExists`. -/
def writeIfNotExists (fs : FS) (path content : String) : Except InitError FS :=
  if fileExists fs path then .ok fs
  else
    match fs.writeFile path content with
    | some fs1 => .ok fs1
    | none => .error (.write path)

/-- The loop of `runInit` over the directories: `os.MkdirAll` each, stop at
the first error. -/
def mkdirEach (fs : FS) : List String → Except InitError Unit × FS
  | [] => (.ok (), fs)
  | d :: ds =>
    match fs.mkdirAll (mkdirChain d) with
    | none => (.error (.mkdir d), fs)
    | some fs1 => mkdirEach fs1 ds

/-- The planner prompt file, `filepath.Join(prompts, "planner.txt")`. -/
def plannerPrompt : String := filepathJoin (filepathJoin base "prompts") "planner.txt"

/-- The ignore file, `filepath.Join(base, ".gitignore")`. -/
def gitignorePath : String := filepathJoin base ".gitignore"

/-- The function `runInit`: the result and the file system it leaves. -/
def runInit (fs : FS) : Except InitError Unit × FS :=
  let prompts := filepathJoin base "prompts"
  let config := filepathJoin base "config"
  let dirs := [base, workspace, prompts, config]
  match mkdirEach fs (enumerateUnique dirs) with
  | (.error e, fs1) => (.error e, fs1)
  | (.ok _, fs1) =>
    match writeIfNotExists fs1 (filepathJoin prompts "planner.txt") defaultPlannerPrompt with
    | .error e => (.error e, fs1)
    | .ok fs2 =>
      match writeIfNotExists fs2 (filepathJoin prompts "reviewer.txt") defaultReviewerPrompt with
      | .error e => (.error e, fs2)
      | .ok fs3 =>
        match writeIfNotExists fs3 gitignorePath "workspace/\n" with
        | .error e => (.error e, fs3)
        | .ok fs4 => (.ok (), fs4)

/-! ## Properties of a run -/

/-- An invocation that stops the pipeline: the process failed, or it is a
reviewer invocation whose last message `validateReviewJSON` rejects. -/
def stepFails (env : Env) (c : Call) : Bool :=
  !c.ok || (c.agent == .reviewer &&
    match c.output with
    | some data => validateReviewJSON env.decode data != .ok ()
    | none => false)

/-- The text `mergeHint` returns when the hint file holds `fileHint` (empty
when no hint file is given) and the inline hint is `hint`. -/
def mergedHint (fileHint hint : String) : String :=
  if hint = "" then fileHint else if fileHint = "" then hint else fileHint ++ "\n\n" ++ hint

/-- The invocations of a run stop at the first failing step: every invocation
but the last passed, and so did the last when the run returned no error. -/
def StopsAtFailure (env : Env) (r : Except PlanError Unit) (calls : List Call) : Prop :=
  (∀ c ∈ calls.dropLast, stepFails env c = false) ∧
    (r = .ok () → ∀ c ∈ calls, stepFails env c = false)

/-- The round artifacts the pipeline writes under the scratch directory. -/
def artifacts : List String :=
  [plannerInput, draftPath, reviewDraftPath, generatedPath, reviewerInput, reviewPath, prevPath]

/-- A workspace the pipeline can run in: `.llm-duet` is a directory, the
scratch directory is a directory or is still to be made, the reviewer prompt
is a regular file, and no artifact path is taken by a directory. -/
def Ready (fs : FS) : Prop :=
  fs base = some .dir ∧ (fs workspace = some .dir ∨ fs workspace = none) ∧
    (∃ prompt, fs reviewerPrompt = some (.file prompt)) ∧ ∀ p ∈ artifacts, fs p ≠ some .dir

/-- The guard marker and the scratch directory lie in their parent
directories: an existing marker has the scratch directory above it, and an
existing scratch directory has `.llm-duet` above it. -/
def TreeShaped (fs : FS) : Prop :=
  ((fs lockPath).isSome → fs workspace = some .dir) ∧
    ((fs workspace).isSome → fs base = some .dir)

/-- The file system after the reviewer has run: its last message, if any, is
written to the output path (unless a directory is in the way). -/
def afterReviewer (fs : FS) (outputPath : String) (lastMessage : Option String) : FS :=
  match lastMessage with
  | none => fs
  | some message => (fs.writeFile outputPath message).getD fs

/-- The section body for `s`: the placeholder when `s` is empty. -/
def withDefault (placeholder s : String) : String :=
  if s = "" then placeholder else s

/-- The value is present and is a JSON number, boolean, array or object. -/
def isOtherValue : Option JSON → Bool
  | some (.bool _) => true
  | some (.num _) => true
  | some (.arr _) => true
  | some (.obj _) => true
  | _ => false

/-- The comment is valid apart from its two nullable fields: it has all six
keys, legal `severity` and `kind`, and non-empty strings as `id` and `summary`. -/
def otherwiseValid (c : JSON) : Bool :=
  hasKeysAndEnums c && isNonEmptyString (commentField c "id") &&
    isNonEmptyString (commentField c "summary")

/-! ## Sample environments and states -/

/-- A review with one comment whose `id` is the empty string. -/
def emptyIdReview : String :=
  "\x7b\"comments\":[\x7b\"id\":\"\",\"severity\":\"major\",\"kind\":\"cost\",\"summary\":\"s\",\"question_to_human\":null,\"auto_fix_proposal\":null\x7d]\x7d"

/-- A review with one conforming comment. -/
def goodReview : String :=
  "\x7b\"comments\":[\x7b\"id\":\"c1\",\"severity\":\"major\",\"kind\":\"cost\",\"summary\":\"s\",\"question_to_human\":null,\"auto_fix_proposal\":\"\"\x7d]\x7d"

/-- A review with one comment whose `severity` is not a legal value. -/
def badSeverityReview : String :=
  "\x7b\"comments\":[\x7b\"id\":\"c1\",\"severity\":\"blocker\",\"kind\":\"cost\",\"summary\":\"s\",\"question_to_human\":null,\"auto_fix_proposal\":null\x7d]\x7d"

/-- A review with one comment that has no `auto_fix_proposal` member. -/
def missingKeyReview : String :=
  "\x7b\"comments\":[\x7b\"id\":\"c1\",\"severity\":\"major\",\"kind\":\"cost\",\"summary\":\"s\",\"question_to_human\":null\x7d]\x7d"

/-- The comment of `emptyIdReview` as a document tree. -/
def emptyIdComment : JSON :=
  .obj [("id", .str ""), ("severity", .str "major"), ("kind", .str "cost"),
    ("summary", .str "s"), ("question_to_human", .null), ("auto_fix_proposal", .null)]

/-- The comment of `goodReview` as a document tree. -/
def goodComment : JSON :=
  .obj [("id", .str "c1"), ("severity", .str "major"), ("kind", .str "cost"),
    ("summary", .str "s"), ("question_to_human", .null), ("auto_fix_proposal", .str "")]

/-- The comment of `badSeverityReview` as a document tree. -/
def badSeverityComment : JSON :=
  .obj [("id", .str "c1"), ("severity", .str "blocker"), ("kind", .str "cost"),
    ("summary", .str "s"), ("question_to_human", .null), ("auto_fix_proposal", .null)]

/-- The comment of `missingKeyReview` as a document tree. -/
def missingKeyComment : JSON :=
  .obj [("id", .str "c1"), ("severity", .str "major"), ("kind", .str "cost"),
    ("summary", .str "s"), ("question_to_human", .null)]

/-- The decoder of `encoding/json` on the sample documents used below (every
other input is treated as not being JSON). -/
def sampleDecode (data : String) : Option JSON :=
  if data = "\x7b\"comments\": []\x7d" then some (.obj [("comments", .arr [])])
  else if data = "\x7b\"comments\": null\x7d" then some (.obj [("comments", .null)])
  else if data = "\x7b\"reviews\": []\x7d" then some (.obj [("reviews", .arr [])])
  else if data = "[]" then some (.arr [])
  else if data = emptyIdReview then some (.obj [("comments", .arr [emptyIdComment])])
  else if data = goodReview then some (.obj [("comments", .arr [goodComment])])
  else if data = badSeverityReview then some (.obj [("comments", .arr [badSeverityComment])])
  else if data = missingKeyReview then some (.obj [("comments", .arr [missingKeyComment])])
  else none

/-- A planner that echoes its input and a reviewer that returns a review
with zero comments; both executables are found. -/
def echoEnv : Env where
  claudeFound := true
  codexFound := true
  planner := fun _ input => ⟨input, true⟩
  reviewer := fun _ _ => ⟨some "\x7b\"comments\": []\x7d", true⟩
  decode := sampleDecode

/-- A workspace as `init` leaves it, with the given reviewer prompt. -/
def initFS (prompt : String) : FS := fun path =>
  if path = base then some .dir
  else if path = workspace then some .dir
  else if path = filepathJoin base "prompts" then some .dir
  else if path = reviewerPrompt then some (.file prompt)
  else none

/-- A workspace with `.llm-duet` and the scratch directory, but without the
prompt files. -/
def bareFS : FS := fun path =>
  if path = base then some .dir
  else if path = workspace then some .dir
  else none

/-- The file system `fs` with `plan.md` holding `plan`. -/
def withPlan (fs : FS) (plan : String) : FS :=
  Function.update fs planPath (some (.file plan))

/-- The file system `fs` with the guard marker present. -/
def withLock (fs : FS) : FS :=
  Function.update fs lockPath (some (.file ""))

/-- The environment `echoEnv` with a planner whose process fails. -/
def failingPlannerEnv : Env := { echoEnv with planner := fun _ input => ⟨input, false⟩ }

/-- The environment `echoEnv` with a reviewer whose last message is `[]`. -/
def rejectedReviewEnv : Env := { echoEnv with reviewer := fun _ _ => ⟨some "[]", true⟩ }

/-- The environment `echoEnv` without the `claude` executable. -/
def noClaudeEnv : Env := { echoEnv with claudeFound := false }

/-- A conforming review that carries unknown keys at both levels, an empty
string and an explicit null. -/
def extraKeysReview : String :=
  "\x7b\"version\":2,\"comments\":[\x7b\"id\":\"c1\",\"severity\":\"minor\",\"kind\":\"ux_flow\",\"summary\":\"s\",\"question_to_human\":\"\",\"auto_fix_proposal\":null,\"note\":[1]\x7d]\x7d"

/-- The comment of `extraKeysReview` as a document tree. -/
def extraKeysComment : JSON :=
  .obj [("id", .str "c1"), ("severity", .str "minor"), ("kind", .str "ux_flow"),
    ("summary", .str "s"), ("question_to_human", .str ""), ("auto_fix_proposal", .null),
    ("note", .arr [.num "1"])]

/-- A review whose comment has a number as `question_to_human`. -/
def numberQuestionReview : String :=
  "\x7b\"comments\":[\x7b\"id\":\"c1\",\"severity\":\"minor\",\"kind\":\"ux_flow\",\"summary\":\"s\",\"question_to_human\":5,\"auto_fix_proposal\":null\x7d]\x7d"

/-- The comment of `numberQuestionReview` as a document tree. -/
def numberQuestionComment : JSON :=
  .obj [("id", .str "c1"), ("severity", .str "minor"), ("kind", .str "ux_flow"),
    ("summary", .str "s"), ("question_to_human", .num "5"), ("auto_fix_proposal", .null)]

/-- The decoder `sampleDecode` extended by two more sample documents. -/
def sampleDecode2 (data : String) : Option JSON :=
  if data = extraKeysReview then
    some (.obj [("version", .num "2"), ("comments", .arr [extraKeysComment])])
  else if data = numberQuestionReview then some (.obj [("comments", .arr [numberQuestionComment])])
  else sampleDecode data

/-- The environment `echoEnv` without the `codex` executable. -/
def noCodexEnv : Env := { echoEnv with codexFound := false }

/-- An empty working directory. -/
def emptyFS : FS := fun _ => none

/-- A working directory where only a customised planner prompt exists (with
its directories). -/
def customPromptFS : FS := fun path =>
  if path = base then some .dir
  else if path = filepathJoin base "prompts" then some .dir
  else if path = plannerPrompt then some (.file "my planner prompt")
  else none

/-! ## The review validator -/

theorem validateComment_ok_iff (i : Nat) (c : JSON) :
    validateComment i c = .ok () ↔ conforms c = true := by
  cases c <;> simp [validateComment, conforms, hasRequiredKeys, isObject, unmarshalMap, commentField,
    requiredKeys, rawField]
  case obj m =>
    simp only [nullableKeys, allowedSeverity, allowedKind, ← rawField.eq_1, List.find?]
    generalize rawField m "id" = vid
    generalize rawField m "severity" = vsev
    generalize rawField m "kind" = vkind
    generalize rawField m "summary" = vsum
    generalize rawField m "question_to_human" = vq
    generalize rawField m "auto_fix_proposal" = va
    rcases vid with _ | vid
    · simp
    rcases vsev with _ | vsev
    · simp
    rcases vkind with _ | vkind
    · simp
    rcases vsum with _ | vsum
    · simp
    rcases vq with _ | vq
    · simp
    rcases va with _ | va
    · simp
    simp only [Option.isNone_some, Option.isSome_some, and_self, true_and]
    cases vid with
    | str sid =>
      by_cases hid : sid = ""
      · simp [hid, unmarshalString, isNonEmptyString]
      simp only [unmarshalString, isNonEmptyString, hid, if_false, not_false_eq_true, true_and,
        decide_True, decide_not, decide_False, Bool.not_false]
      cases vsev with
      | str ssev =>
        by_cases hsev : ssev = "critical" ∨ ssev = "major" ∨ ssev = "minor"
        swap
        · simp [hsev, isOneOf]
        have hsev2 : isOneOf ["critical", "major", "minor"] (some (.str ssev)) = true := by
          simpa [isOneOf] using hsev
        simp only [hsev, hsev2, if_true, true_and, List.mem_cons, List.mem_singleton, List.not_mem_nil,
          or_false, not_true_eq_false, if_false]
        cases vkind with
        | str skind =>
          by_cases hkind : skind = "spec_intent" ∨ skind = "feature_scope" ∨ skind = "api_design" ∨
              skind = "ux_flow" ∨ skind = "performance" ∨ skind = "cost" ∨ skind = "style_minor"
          swap
          · simp [hkind, isOneOf]
          have hkind2 : isOneOf ["spec_intent", "feature_scope", "api_design", "ux_flow",
              "performance", "cost", "style_minor"] (some (.str skind)) = true := by
            simpa [isOneOf] using hkind
          simp only [hkind, hkind2, if_true, true_and]
          cases vsum with
          | str ssum =>
            by_cases hsum : ssum = ""
            · simp [hsum]
            simp only [hsum, if_false, decide_False, Bool.not_false, true_and]
            cases vq <;> cases va <;> simp [isNullLiteral, isStringOrNull]
          | _ => simp
        | _ => simp [isOneOf]
      | _ => simp [isOneOf]
    | _ => simp [unmarshalString, isNonEmptyString]


theorem validateComments_ok_iff (cs : List JSON) (i : Nat) :
    validateComments i cs = .ok () ↔ ∀ c ∈ cs, conforms c = true := by
  induction cs generalizing i with
  | nil => simp [validateComments]
  | cons c rest ih =>
    simp only [validateComments, List.mem_cons, forall_eq_or_imp, ← validateComment_ok_iff i c]
    cases h : validateComment i c with
    | error e => simp
    | ok u => simp [ih]

theorem validateReviewDoc_of_comments {doc : Option JSON} {cs : List JSON}
    (h : commentsOf doc = some cs) :
    validateReviewDoc doc = validateComments 0 cs := by
  rcases doc with _ | doc
  · simp [commentsOf] at h
  cases doc <;> simp [commentsOf] at h
  case obj m =>
    rcases hc : rawField m "comments" with _ | v
    · simp [hc] at h
    cases v <;> simp [hc] at h
    case arr items =>
      subst h
      simp [validateReviewDoc, unmarshalMap, hc, unmarshalSlice]

theorem validate_error_of_not_conforms {decode : String → Option JSON} {data : String}
    {cs : List JSON} {c : JSON} (hcs : commentsOf (decode data) = some cs) (hc : c ∈ cs)
    (hbad : conforms c = false) : ∃ e, validateReviewJSON decode data = .error e := by
  unfold validateReviewJSON
  rw [validateReviewDoc_of_comments hcs]
  cases h : validateComments 0 cs with
  | error e => exact ⟨e, rfl⟩
  | ok u =>
    have := (validateComments_ok_iff cs 0).1 h c hc
    simp [this] at hbad

/-! ## The pipeline: evaluation lemmas -/

@[simp] theorem base_val : base = ".llm-duet" := rfl
@[simp] theorem workspace_val : workspace = ".llm-duet/workspace" := by decide
@[simp] theorem lockPath_val : lockPath = ".llm-duet/workspace/lock" := by decide
@[simp] theorem planPath_val : planPath = "plan.md" := rfl
@[simp] theorem plannerInput_val : plannerInput = ".llm-duet/workspace/planner_input.txt" := by decide
@[simp] theorem draftPath_val : draftPath = ".llm-duet/workspace/plan_draft.md" := by decide
@[simp] theorem reviewDraftPath_val : reviewDraftPath = ".llm-duet/workspace/review_draft.json" := by decide
@[simp] theorem generatedPath_val : generatedPath = ".llm-duet/workspace/plan_generated.md" := by decide
@[simp] theorem reviewerInput_val : reviewerInput = ".llm-duet/workspace/reviewer_input.txt" := by decide
@[simp] theorem reviewPath_val : reviewPath = ".llm-duet/workspace/review.json" := by decide
@[simp] theorem prevPath_val : prevPath = ".llm-duet/workspace/plan_prev.md" := by decide
@[simp] theorem reviewerPrompt_val : reviewerPrompt = ".llm-duet/prompts/reviewer.txt" := by decide

@[simp] theorem Step.bind_apply {α β : Type} (m : Step α) (f : α → Step β) (w : World) :
    (m >>= f) w = match m w with
      | (.ok a, w1) => f a w1
      | (.error e, w1) => (.error e, w1) := rfl

@[simp] theorem Step.pure_apply {α : Type} (a : α) (w : World) :
    (pure a : Step α) w = (.ok a, w) := rfl


theorem bind_writeFileStep {β : Type} (path content : String) (f : Unit → Step β) (w : World) :
    (writeFileStep path content >>= f) w =
      if w.fs path = some .dir then (.error (.io path), w)
      else f () ⟨Function.update w.fs path (some (.file content)), w.calls⟩ := by
  simp only [Step.bind_apply, writeFileStep, FS.writeFile]
  rcases h : w.fs path with _ | (c | _) <;> simp

theorem writeFileStep_apply (path content : String) (w : World) :
    writeFileStep path content w =
      if w.fs path = some .dir then (.error (.io path), w)
      else (.ok (), ⟨Function.update w.fs path (some (.file content)), w.calls⟩) := by
  simp only [writeFileStep, FS.writeFile]
  rcases h : w.fs path with _ | (c | _) <;> simp

theorem bind_readFileStep {β : Type} (path : String) (f : String → Step β) (w : World) :
    (readFileStep path >>= f) w =
      match w.fs path with
      | some (.file content) => f content w
      | _ => (.error (.io path), w) := by
  simp only [Step.bind_apply, readFileStep, FS.readFile]
  rcases h : w.fs path with _ | (c | _) <;> simp

theorem bind_runClaude {β : Type} (env : Env) (artifact inputPath outputPath : String)
    (f : Unit → Step β) (w : World) :
    (wrapErr (.plannerStep artifact) (runClaude env inputPath outputPath) >>= f) w =
      match w.fs inputPath with
      | some (.file input) =>
        if w.fs outputPath = some .dir then (.error (.plannerStep artifact (.io outputPath)), w)
        else if (env.planner w.calls input).ok = true then
          f () ⟨Function.update w.fs outputPath (some (.file (env.planner w.calls input).stdout)),
            w.calls ++ [⟨.planner, input, some (env.planner w.calls input).stdout, true⟩]⟩
        else
          (.error (.plannerStep artifact .agentExec),
            ⟨Function.update w.fs outputPath (some (.file (env.planner w.calls input).stdout)),
              w.calls ++ [⟨.planner, input, some (env.planner w.calls input).stdout, false⟩]⟩)
      | _ => (.error (.plannerStep artifact (.io inputPath)), w) := by
  simp only [Step.bind_apply, wrapErr, runClaude, FS.readFile, FS.writeFile]
  rcases h : w.fs inputPath with _ | (c | _) <;> simp
  rcases h2 : w.fs outputPath with _ | (c2 | _) <;> simp <;>
    cases h3 : (env.planner w.calls c).ok <;> simp

theorem bind_runCodex {β : Type} (env : Env) (artifact inputPath outputPath : String)
    (f : Unit → Step β) (w : World) :
    (wrapErr (.reviewerStep artifact) (runCodex env inputPath outputPath) >>= f) w =
      match w.fs inputPath with
      | some (.file input) =>
        if (env.reviewer w.calls input).ok = true then
          f () ⟨afterReviewer w.fs outputPath (env.reviewer w.calls input).lastMessage,
            w.calls ++ [⟨.reviewer, input, (env.reviewer w.calls input).lastMessage, true⟩]⟩
        else
          (.error (.reviewerStep artifact .agentExec),
            ⟨afterReviewer w.fs outputPath (env.reviewer w.calls input).lastMessage,
              w.calls ++ [⟨.reviewer, input, (env.reviewer w.calls input).lastMessage, false⟩]⟩)
      | _ => (.error (.reviewerStep artifact (.io inputPath)), w) := by
  simp only [Step.bind_apply, wrapErr, runCodex, FS.readFile, afterReviewer]
  rcases h : w.fs inputPath with _ | (c | _) <;> simp
  cases h3 : (env.reviewer w.calls c).ok <;> simp

theorem bind_validateStep {β : Type} (env : Env) (artifact data : String)
    (f : Unit → Step β) (w : World) :
    (validateStep env artifact data >>= f) w =
      match validateReviewJSON env.decode data with
      | .ok _ => f () w
      | .error e => (.error (.reviewInvalid artifact e), w) := by
  simp only [Step.bind_apply, validateStep]
  cases validateReviewJSON env.decode data <;> simp

theorem copyFile_apply (src dst : String) (w : World) :
    copyFile src dst w =
      match w.fs src with
      | some (.file content) =>
        if w.fs dst = some .dir then (.error (.io dst), w)
        else (.ok (), ⟨Function.update w.fs dst (some (.file content)), w.calls⟩)
      | _ => (.error (.io src), w) := by
  simp only [copyFile, bind_readFileStep, writeFileStep, FS.writeFile]
  rcases h : w.fs src with _ | (c | _) <;> simp
  rcases h2 : w.fs dst with _ | (c2 | _) <;> simp


theorem Step.bind_assoc {α β γ : Type} (m : Step α) (g : α → Step β) (f : β → Step γ) :
    (m >>= g) >>= f = m >>= fun a => g a >>= f := by
  funext w
  simp only [Step.bind_apply]
  rcases m w with ⟨_ | _, _⟩ <;> rfl


theorem afterReviewer_apply (fs : FS) (outputPath : String) (lastMessage : Option String) (p : String) :
    afterReviewer fs outputPath lastMessage p =
      if p = outputPath then
        match lastMessage with
        | none => fs outputPath
        | some message => if fs outputPath = some .dir then some .dir else some (.file message)
      else fs p := by
  unfold afterReviewer
  rcases lastMessage with _ | message
  · by_cases h : p = outputPath <;> simp [h]
  · simp only [FS.writeFile]
    rcases hd : fs outputPath with _ | (c | _) <;> by_cases h : p = outputPath <;>
      simp [h, hd, Function.update_apply]


/-! ## The pipeline: what every run does -/

set_option maxHeartbeats 4000000 in
theorem initial_summary (env : Env) (ideaText hintText : String) (fs : FS)
    (r : Except PlanError Unit) (w1 : World)
    (hrun : runPlanInitial env ideaText hintText ⟨fs, []⟩ = (r, w1)) :
    w1.fs lockPath = fs lockPath ∧ (r ≠ .ok () → w1.fs planPath = fs planPath) ∧
      StopsAtFailure env r w1.calls := by
  simp only [runPlanInitial, writePlannerInput, writeReviewerInput, bind_writeFileStep,
    bind_readFileStep, bind_runClaude, bind_runCodex, bind_validateStep, copyFile_apply,
    Step.bind_assoc] at hrun
  simp [afterReviewer_apply] at hrun ⊢
  repeat' split at hrun
  all_goals (simp at hrun; obtain ⟨rfl, rfl⟩ := hrun)
  all_goals (simp [StopsAtFailure, stepFails, afterReviewer_apply])
  all_goals (split <;> simp_all)
  all_goals (split_ifs at * <;> simp_all)

set_option maxHeartbeats 4000000 in
theorem update_summary (env : Env) (hintText : String) (fs : FS)
    (r : Except PlanError Unit) (w1 : World)
    (hrun : runPlanUpdate env hintText ⟨fs, []⟩ = (r, w1)) :
    w1.fs lockPath = fs lockPath ∧ (r ≠ .ok () → w1.fs planPath = fs planPath) ∧
      StopsAtFailure env r w1.calls := by
  simp only [runPlanUpdate, writePlannerInput, writeReviewerInput, bind_writeFileStep,
    bind_readFileStep, bind_runClaude, bind_runCodex, bind_validateStep, writeFileStep_apply,
    copyFile, Step.bind_assoc] at hrun
  simp [afterReviewer_apply] at hrun ⊢
  repeat' split at hrun
  all_goals (simp at hrun; obtain ⟨rfl, rfl⟩ := hrun)
  all_goals (simp [StopsAtFailure, stepFails, afterReviewer_apply])
  all_goals (split <;> simp_all)
  all_goals (split_ifs at * <;> simp_all)

theorem bind_readOptionalFile {β : Type} (path : String) (f : String → Step β) (w : World) :
    (readOptionalFile path >>= f) w =
      if path = "" then f "" w
      else
        match w.fs path with
        | some (.file content) => f content w
        | _ => (.error (.io path), w) := by
  unfold readOptionalFile
  by_cases h : path = ""
  · simp [h]
  · simp only [h, if_false, bind_readFileStep]

theorem bind_mergeHint {β : Type} (hint hintFile : String) (f : String → Step β) (w : World) :
    (mergeHint hint hintFile >>= f) w =
      if hintFile = "" then f (mergedHint "" hint) w
      else
        match w.fs hintFile with
        | some (.file content) => f (mergedHint content hint) w
        | _ => (.error (.io hintFile), w) := by
  simp only [mergeHint, Step.bind_assoc, bind_readOptionalFile, mergedHint]
  by_cases hf : hintFile = ""
  · by_cases hh : hint = "" <;> simp [hf, hh]
  · simp only [hf, if_false]
    rcases hfs : w.fs hintFile with _ | (content | _)
    · simp
    · by_cases hh : hint = "" <;> by_cases hc : content = "" <;> simp [hh, hc]
    · simp

theorem Step.pure_bind {α β : Type} (a : α) (f : α → Step β) : (pure a >>= f) = f a := by
  funext w
  rfl

theorem guarded_summary (env : Env) (idea ideaFile hint hintFile : String) (fs : FS)
    (r : Except PlanError Unit) (w1 : World)
    (hrun : runPlanGuarded env idea ideaFile hint hintFile ⟨fs, []⟩ = (r, w1)) :
    w1.fs lockPath = fs lockPath ∧ (r ≠ .ok () → w1.fs planPath = fs planPath) ∧
      StopsAtFailure env r w1.calls := by
  unfold runPlanGuarded at hrun
  split_ifs at hrun
  all_goals (try simp only [bind_readOptionalFile, bind_mergeHint, Step.pure_bind] at hrun)
  all_goals (repeat' split at hrun)
  all_goals first
    | exact initial_summary _ _ _ _ _ _ hrun
    | exact update_summary _ _ _ _ _ hrun
    | (simp at hrun; obtain ⟨rfl, rfl⟩ := hrun; simp [StopsAtFailure])

theorem mem_getLast_of_not_mem_dropLast {α : Type} {l : List α} {a : α} (h : a ∈ l)
    (hd : a ∉ l.dropLast) : l.getLast? = some a := by
  rcases hl : l.getLast? with _ | b
  · simp [List.getLast?_eq_none_iff] at hl
    simp [hl] at h
  · have := List.dropLast_append_getLast? b hl
    rw [← this] at h
    simp at h
    rcases h with h | h
    · exact absurd h hd
    · rw [h]

theorem mkdirAll_frame {fs fs1 : FS} (h : fs.mkdirAll [workspace, base] = some fs1) (p : String)
    (hw : p ≠ workspace) (hb : p ≠ base) : fs1 p = fs p := by
  simp only [FS.mkdirAll, workspace_val, base_val] at h hw hb
  rcases hws : fs ".llm-duet/workspace" with _ | (c | _) <;>
    rcases hbs : fs ".llm-duet" with _ | (c | _) <;>
    simp [hws, hbs] at h <;> subst h <;> simp [Function.update_apply, hw, hb]

theorem runPlan_summary (env : Env) (idea ideaFile hint hintFile : String) (fs : FS)
    (r : Except PlanError Unit) (w1 : World)
    (hrun : runPlan env idea ideaFile hint hintFile ⟨fs, []⟩ = (r, w1)) :
    StopsAtFailure env r w1.calls ∧ (r ≠ .ok () → w1.fs planPath = fs planPath) ∧
      (w1.calls ≠ [] → fs lockPath = none ∧ (r ≠ .ok () → w1.fs lockPath = some (.file ""))) := by
  unfold runPlan at hrun
  split at hrun
  · simp at hrun; obtain ⟨rfl, rfl⟩ := hrun; simp [StopsAtFailure]
  split at hrun
  · simp at hrun; obtain ⟨rfl, rfl⟩ := hrun; simp [StopsAtFailure]
  rename_i fs1 hmk
  have hplan1 : fs1 "plan.md" = fs "plan.md" := by
    simpa using mkdirAll_frame hmk planPath (by decide) (by decide)
  have hlock1 : fs1 lockPath = fs lockPath := mkdirAll_frame hmk _ (by decide) (by decide)
  split at hrun
  · simp at hrun; obtain ⟨rfl, rfl⟩ := hrun; simp [StopsAtFailure, hplan1]
  split at hrun
  · simp at hrun; obtain ⟨rfl, rfl⟩ := hrun; simp [StopsAtFailure, hplan1]
  rename_i hnolock
  split at hrun
  · simp at hrun; obtain ⟨rfl, rfl⟩ := hrun; simp [StopsAtFailure, hplan1]
  rename_i fs2 hwr
  have hfs2 : fs2 = Function.update fs1 lockPath (some (.file "")) := by
    simp only [FS.writeFile] at hwr
    split at hwr <;> simp at hwr
    exact hwr.symm
  have hnone : fs lockPath = none := by
    rw [← hlock1]; simpa using hnolock
  split at hrun
  all_goals (rename_i hg; have hsum := guarded_summary _ _ _ _ _ _ _ _ hg)
  all_goals (simp at hrun; obtain ⟨rfl, rfl⟩ := hrun)
  all_goals (obtain ⟨hl, hp, hs⟩ := hsum)
  · refine ⟨hs, by simp, fun _ => ⟨hnone, by simp⟩⟩
  · refine ⟨hs, fun _ => ?_, fun _ => ⟨hnone, fun _ => ?_⟩⟩
    · rw [hp (by simp), hfs2]
      simpa [Function.update_apply] using hplan1
    · rw [hl, hfs2]
      simp

/-! ## The run guard and the two flows -/

/-- C1. Whenever a planner invocation fails, a reviewer invocation fails, or
`validateReviewJSON` rejects the reviewer's output, `runPlan` returns an error,
that invocation is the last one of the run, the guard marker (absent before the
run, so created by it) is present afterwards, and `plan.md` names exactly what
it named before the run. -/
theorem failing_step_aborts_run (env : Env) (idea ideaFile hint hintFile : String) (fs : FS)
    (c : Call)
    (hc : c ∈ (runPlan env idea ideaFile hint hintFile ⟨fs, []⟩).2.calls)
    (hfail : stepFails env c = true) :
    (∃ e, (runPlan env idea ideaFile hint hintFile ⟨fs, []⟩).1 = .error e) ∧
      (runPlan env idea ideaFile hint hintFile ⟨fs, []⟩).2.calls.getLast? = some c ∧
      fs lockPath = none ∧
      (runPlan env idea ideaFile hint hintFile ⟨fs, []⟩).2.fs lockPath = some (.file "") ∧
      (runPlan env idea ideaFile hint hintFile ⟨fs, []⟩).2.fs planPath = fs planPath := by
  rcases hrun : runPlan env idea ideaFile hint hintFile ⟨fs, []⟩ with ⟨r, w1⟩
  rw [hrun] at hc
  obtain ⟨⟨hdrop, hall⟩, hplan, hguard⟩ := runPlan_summary _ _ _ _ _ _ _ _ hrun
  have hne : w1.calls ≠ [] := List.ne_nil_of_mem hc
  have hr : r ≠ .ok () := fun h => by
    have := hall h c hc
    simp [this] at hfail
  have hlast : c ∉ w1.calls.dropLast := fun h => by
    have := hdrop c h
    simp [this] at hfail
  refine ⟨?_, mem_getLast_of_not_mem_dropLast hc hlast, (hguard hne).1, (hguard hne).2 hr, hplan hr⟩
  rcases r with e | u
  · exact ⟨e, rfl⟩
  · exact absurd rfl hr

/-- C1 (witness). A planner whose process fails, and a reviewer whose output
`[]` is rejected: in both runs the failing invocation is in the record, the run
returns an error, and the guard marker stays. -/
theorem failing_step_aborts_run_witness :
    ((⟨.planner, plannerInputText "Build a todo app" "" "(none)" "\x7b\x7d",
        some (plannerInputText "Build a todo app" "" "(none)" "\x7b\x7d"), false⟩ : Call) ∈
      (runPlan failingPlannerEnv "Build a todo app" "" "" "" ⟨initFS "P", []⟩).2.calls ∧
    (∃ e, (runPlan failingPlannerEnv "Build a todo app" "" "" "" ⟨initFS "P", []⟩).1 = .error e) ∧
    (runPlan failingPlannerEnv "Build a todo app" "" "" "" ⟨initFS "P", []⟩).2.fs lockPath =
      some (.file "")) ∧
    ((⟨.reviewer, reviewerInputText "P" "old plan", some "[]", true⟩ : Call) ∈
      (runPlan rejectedReviewEnv "" "" "" "" ⟨withPlan (initFS "P") "old plan", []⟩).2.calls ∧
    (∃ e, (runPlan rejectedReviewEnv "" "" "" "" ⟨withPlan (initFS "P") "old plan", []⟩).1 =
      .error e) ∧
    (runPlan rejectedReviewEnv "" "" "" "" ⟨withPlan (initFS "P") "old plan", []⟩).2.fs planPath =
      some (.file "old plan")) :=
  have h := failing_step_aborts_run failingPlannerEnv "Build a todo app" "" "" "" (initFS "P")
    ⟨.planner, plannerInputText "Build a todo app" "" "(none)" "\x7b\x7d",
      some (plannerInputText "Build a todo app" "" "(none)" "\x7b\x7d"), false⟩
    (by decide) (by decide)
  have h2 := failing_step_aborts_run rejectedReviewEnv "" "" "" ""
    (withPlan (initFS "P") "old plan")
    ⟨.reviewer, reviewerInputText "P" "old plan", some "[]", true⟩ (by decide) (by decide)
  ⟨⟨by decide, h.1, h.2.2.2.1⟩, ⟨by decide, h2.1, h2.2.2.2.2⟩⟩

theorem ready_initFS : Ready (initFS "P") :=
  ⟨by decide, Or.inl (by decide), ⟨"P", by decide⟩, by decide⟩

/-- C2 (counterexample). With `.llm-duet` present, both executables found, no
`plan.md`, no guard marker, a non-empty idea, and agents that always succeed
with a valid review, `runPlan` still returns an error when the reviewer prompt
file is missing; `plan.md` stays absent and the guard marker stays. -/
theorem initial_flow_needs_reviewer_prompt :
    bareFS base = some .dir ∧ bareFS planPath = none ∧ bareFS lockPath = none ∧
    echoEnv.claudeFound = true ∧ echoEnv.codexFound = true ∧
    (∀ calls input, (echoEnv.planner calls input).ok = true) ∧
    (∀ calls input, (echoEnv.reviewer calls input).ok = true ∧
      ∃ data, (echoEnv.reviewer calls input).lastMessage = some data ∧
        validateReviewJSON echoEnv.decode data = .ok ()) ∧
    (runPlan echoEnv "Build a todo app" "" "" "" ⟨bareFS, []⟩).1 = .error (.io reviewerPrompt) ∧
    (runPlan echoEnv "Build a todo app" "" "" "" ⟨bareFS, []⟩).2.fs planPath = none ∧
    (runPlan echoEnv "Build a todo app" "" "" "" ⟨bareFS, []⟩).2.fs lockPath = some (.file "") :=
  ⟨by decide, by decide, by decide, rfl, rfl, fun _ _ => rfl,
    fun _ _ => ⟨rfl, _, rfl, by decide⟩, by decide, by decide, by decide⟩

set_option maxHeartbeats 4000000 in
/-- C2 (amended). Initial flow: in a workspace that is ready (`.llm-duet` a
directory, the scratch directory a directory or still to be made, the reviewer
prompt a regular file, no artifact path taken by a directory), with both
executables found, no `plan.md` and no guard marker, an idea given inline
(non-empty) or read from the idea file, a hint given inline and/or read from
the hint file, and agents whose invocations all succeed with a reviewer output
that passes `validateReviewJSON`: `runPlan` returns no error, the invocations
are planner, reviewer, planner, the second planner input is the bundle built
from the idea, the hint, the first planner output and the reviewer output,
`plan.md` holds the second planner output, and the guard marker is absent. -/
theorem initial_flow_writes_final_generation (env : Env) (fs : FS)
    (idea ideaFile hint hintFile ideaText fileHint : String)
    (hready : Ready fs) (hclaude : env.claudeFound = true) (hcodex : env.codexFound = true)
    (hplan : fs planPath = none) (hlock : fs lockPath = none)
    (hsrc : (idea = ideaText ∧ idea ≠ "") ∨
      (idea = "" ∧ ideaFile ≠ "" ∧ fs ideaFile = some (.file ideaText)))
    (hhint : (hintFile = "" ∧ fileHint = "") ∨ (hintFile ≠ "" ∧ fs hintFile = some (.file fileHint)))
    (hplanner : ∀ calls input, (env.planner calls input).ok = true)
    (hreviewer : ∀ calls input, (env.reviewer calls input).ok = true ∧
      ∃ data, (env.reviewer calls input).lastMessage = some data ∧
        validateReviewJSON env.decode data = .ok ()) :
    ∃ prompt draft review final : String,
      fs reviewerPrompt = some (.file prompt) ∧
      (runPlan env idea ideaFile hint hintFile ⟨fs, []⟩).1 = .ok () ∧
      (runPlan env idea ideaFile hint hintFile ⟨fs, []⟩).2.calls =
        [⟨.planner, plannerInputText ideaText (mergedHint fileHint hint) "(none)" "\x7b\x7d", some draft, true⟩,
         ⟨.reviewer, reviewerInputText prompt draft, some review, true⟩,
         ⟨.planner, plannerInputText ideaText (mergedHint fileHint hint) draft review, some final, true⟩] ∧
      validateReviewJSON env.decode review = .ok () ∧
      (runPlan env idea ideaFile hint hintFile ⟨fs, []⟩).2.fs planPath = some (.file final) ∧
      (runPlan env idea ideaFile hint hintFile ⟨fs, []⟩).2.fs lockPath = none := by
  obtain ⟨hb, hw, ⟨prompt, hprompt⟩, hart⟩ := hready
  choose hrok R hmsg hval using hreviewer
  simp [artifacts] at hb hw hprompt hart hplan hlock
  obtain ⟨ha1, ha2, ha3, ha4, ha5, ha6, ha7⟩ := hart
  have hne : ∀ (p t : String), fs p = some (.file t) → p ≠ ".llm-duet/workspace/lock" ∧
      p ≠ ".llm-duet/workspace" := fun p t ht => by
    constructor <;> rintro rfl
    · rw [hlock] at ht; cases ht
    · rcases hw with hw | hw <;> rw [hw] at ht <;> cases ht
  refine ⟨prompt, (env.planner [] (plannerInputText ideaText (mergedHint fileHint hint) "(none)" "\x7b\x7d")).stdout,
    (R [⟨.planner, (plannerInputText ideaText (mergedHint fileHint hint) "(none)" "\x7b\x7d"), some (env.planner [] (plannerInputText ideaText (mergedHint fileHint hint) "(none)" "\x7b\x7d")).stdout, true⟩] (reviewerInputText prompt (env.planner [] (plannerInputText ideaText (mergedHint fileHint hint) "(none)" "\x7b\x7d")).stdout)),
    (env.planner [⟨.planner, (plannerInputText ideaText (mergedHint fileHint hint) "(none)" "\x7b\x7d"), some (env.planner [] (plannerInputText ideaText (mergedHint fileHint hint) "(none)" "\x7b\x7d")).stdout, true⟩, ⟨.reviewer, (reviewerInputText prompt (env.planner [] (plannerInputText ideaText (mergedHint fileHint hint) "(none)" "\x7b\x7d")).stdout), some (R [⟨.planner, (plannerInputText ideaText (mergedHint fileHint hint) "(none)" "\x7b\x7d"), some (env.planner [] (plannerInputText ideaText (mergedHint fileHint hint) "(none)" "\x7b\x7d")).stdout, true⟩] (reviewerInputText prompt (env.planner [] (plannerInputText ideaText (mergedHint fileHint hint) "(none)" "\x7b\x7d")).stdout)), true⟩] (plannerInputText ideaText (mergedHint fileHint hint) (env.planner [] (plannerInputText ideaText (mergedHint fileHint hint) "(none)" "\x7b\x7d")).stdout (R [⟨.planner, (plannerInputText ideaText (mergedHint fileHint hint) "(none)" "\x7b\x7d"), some (env.planner [] (plannerInputText ideaText (mergedHint fileHint hint) "(none)" "\x7b\x7d")).stdout, true⟩] (reviewerInputText prompt (env.planner [] (plannerInputText ideaText (mergedHint fileHint hint) "(none)" "\x7b\x7d")).stdout)))).stdout,
    by simpa using hprompt, ?_⟩
  rcases hw with hw | hw <;> rcases hsrc with ⟨rfl, hi⟩ | ⟨rfl, hif, hi⟩ <;>
    rcases hhint with ⟨rfl, rfl⟩ | ⟨hhf, hh⟩
  all_goals
    simp [-Step.bind_apply, runPlan, hb, FS.mkdirAll, hw, checkCLIs, hclaude, hcodex, hlock,
      FS.writeFile, runPlanGuarded, fileExists, hplan, bind_mergeHint, Step.pure_bind,
      bind_readOptionalFile, Function.update_apply, *]
  all_goals
    simp only [runPlanInitial, writePlannerInput, writeReviewerInput, bind_writeFileStep,
      bind_readFileStep, bind_runClaude, bind_runCodex, bind_validateStep, copyFile_apply,
      Step.bind_assoc]
  all_goals simp [afterReviewer_apply, FS.remove, Function.update_apply, *]

set_option maxHeartbeats 4000000 in

/-- C2 (witness). The echoing planner and the reviewer with zero comments, on
the idea "Build a todo app" in a freshly initialised workspace. -/
theorem initial_flow_writes_final_generation_witness :
    Ready (initFS "P") ∧
    (runPlan echoEnv "Build a todo app" "" "" "" ⟨initFS "P", []⟩).1 = .ok () ∧
    (runPlan echoEnv "Build a todo app" "" "" "" ⟨initFS "P", []⟩).2.fs lockPath = none :=
  match initial_flow_writes_final_generation echoEnv (initFS "P") "Build a todo app" "" "" ""
      "Build a todo app" "" ready_initFS rfl rfl (by decide) (by decide)
      (Or.inl ⟨rfl, by decide⟩) (Or.inl ⟨rfl, rfl⟩) (fun _ _ => rfl)
      (fun _ _ => ⟨rfl, _, rfl, by decide⟩) with
  | ⟨_, _, _, _, _, hok, _, _, _, hlock⟩ => ⟨ready_initFS, hok, hlock⟩

/-- C3 (counterexample). With an existing `plan.md`, no guard marker, no idea,
and agents that always succeed with a valid review, `runPlan` still returns an
error when the reviewer prompt file is missing; `plan.md` keeps its content and
the guard marker stays. -/
theorem update_flow_needs_reviewer_prompt :
    withPlan bareFS "old plan" planPath = some (.file "old plan") ∧
    withPlan bareFS "old plan" lockPath = none ∧
    (∀ calls input, (echoEnv.planner calls input).ok = true) ∧
    (∀ calls input, (echoEnv.reviewer calls input).ok = true ∧
      ∃ data, (echoEnv.reviewer calls input).lastMessage = some data ∧
        validateReviewJSON echoEnv.decode data = .ok ()) ∧
    (runPlan echoEnv "" "" "" "" ⟨withPlan bareFS "old plan", []⟩).1 = .error (.io reviewerPrompt) ∧
    (runPlan echoEnv "" "" "" "" ⟨withPlan bareFS "old plan", []⟩).2.fs planPath =
      some (.file "old plan") ∧
    (runPlan echoEnv "" "" "" "" ⟨withPlan bareFS "old plan", []⟩).2.fs lockPath = some (.file "") :=
  ⟨by decide, by decide, fun _ _ => rfl,
    fun _ _ => ⟨rfl, _, rfl, by decide⟩, by decide, by decide, by decide⟩

/-- C3 (amended). Update flow: in a workspace that is ready, with both
executables found, `plan.md` a regular file holding `plan`, no guard marker, no
idea supplied, a hint given inline and/or read from the hint file, and agents
whose invocations all succeed with a reviewer output that passes
`validateReviewJSON`: `runPlan` returns no error, the invocations are reviewer,
planner, `plan_prev.md` holds `plan`, the planner input is the bundle built
from the idea placeholder, the hint (or the placeholder when empty), `plan` and
the reviewer output, `plan.md` holds the planner output, and the guard marker is
absent. -/
theorem update_flow_writes_final_generation (env : Env) (fs : FS) (hint hintFile fileHint plan : String)
    (hready : Ready fs) (hclaude : env.claudeFound = true) (hcodex : env.codexFound = true)
    (hplan : fs planPath = some (.file plan)) (hlock : fs lockPath = none)
    (hhint : (hintFile = "" ∧ fileHint = "") ∨ (hintFile ≠ "" ∧ fs hintFile = some (.file fileHint)))
    (hplanner : ∀ calls input, (env.planner calls input).ok = true)
    (hreviewer : ∀ calls input, (env.reviewer calls input).ok = true ∧
      ∃ data, (env.reviewer calls input).lastMessage = some data ∧
        validateReviewJSON env.decode data = .ok ()) :
    ∃ prompt review final : String,
      fs reviewerPrompt = some (.file prompt) ∧
      (runPlan env "" "" hint hintFile ⟨fs, []⟩).1 = .ok () ∧
      (runPlan env "" "" hint hintFile ⟨fs, []⟩).2.calls =
        [⟨.reviewer, reviewerInputText prompt plan, some review, true⟩,
         ⟨.planner, plannerInputText "(none)"
            (if mergedHint fileHint hint = "" then "(none)" else mergedHint fileHint hint)
            plan review, some final, true⟩] ∧
      validateReviewJSON env.decode review = .ok () ∧
      (runPlan env "" "" hint hintFile ⟨fs, []⟩).2.fs prevPath = some (.file plan) ∧
      (runPlan env "" "" hint hintFile ⟨fs, []⟩).2.fs planPath = some (.file final) ∧
      (runPlan env "" "" hint hintFile ⟨fs, []⟩).2.fs lockPath = none := by
  obtain ⟨hb, hw, ⟨prompt, hprompt⟩, hart⟩ := hready
  choose hrok R hmsg hval using hreviewer
  simp [artifacts] at hb hw hprompt hart hplan hlock
  obtain ⟨ha1, ha2, ha3, ha4, ha5, ha6, ha7⟩ := hart
  have hne : ∀ (p t : String), fs p = some (.file t) → p ≠ ".llm-duet/workspace/lock" ∧
      p ≠ ".llm-duet/workspace" := fun p t ht => by
    constructor <;> rintro rfl
    · rw [hlock] at ht; cases ht
    · rcases hw with hw | hw <;> rw [hw] at ht <;> cases ht
  refine ⟨prompt, (R [] (reviewerInputText prompt plan)),
    (env.planner [⟨.reviewer, (reviewerInputText prompt plan), some (R [] (reviewerInputText prompt plan)), true⟩] (plannerInputText "(none)" (if mergedHint fileHint hint = "" then "(none)" else mergedHint fileHint hint) plan (R [] (reviewerInputText prompt plan)))).stdout,
    by simpa using hprompt, ?_⟩
  rcases hw with hw | hw <;> rcases hhint with ⟨rfl, rfl⟩ | ⟨hhf, hh⟩
  all_goals
    simp [-Step.bind_apply, runPlan, hb, FS.mkdirAll, hw, checkCLIs, hclaude, hcodex, hlock,
      FS.writeFile, runPlanGuarded, fileExists, hplan, bind_mergeHint, Step.pure_bind,
      bind_readOptionalFile, Function.update_apply, *]
  all_goals
    simp only [runPlanUpdate, writePlannerInput, writeReviewerInput, bind_writeFileStep,
      bind_readFileStep, bind_runClaude, bind_runCodex, bind_validateStep, writeFileStep_apply,
      copyFile, Step.bind_assoc]
  all_goals simp [afterReviewer_apply, FS.remove, Function.update_apply, *]

theorem ready_withPlan : Ready (withPlan (initFS "P") "old plan") :=
  ⟨by decide, Or.inl (by decide), ⟨"P", by decide⟩, by decide⟩

/-- C3 (witness). The echoing planner and the reviewer with zero comments, on
an initialised workspace whose `plan.md` holds "old plan". -/
theorem update_flow_writes_final_generation_witness :
    Ready (withPlan (initFS "P") "old plan") ∧
    (runPlan echoEnv "" "" "" "" ⟨withPlan (initFS "P") "old plan", []⟩).1 = .ok () ∧
    (runPlan echoEnv "" "" "" "" ⟨withPlan (initFS "P") "old plan", []⟩).2.fs prevPath =
      some (.file "old plan") ∧
    (runPlan echoEnv "" "" "" "" ⟨withPlan (initFS "P") "old plan", []⟩).2.fs lockPath = none :=
  match update_flow_writes_final_generation echoEnv (withPlan (initFS "P") "old plan") "" "" ""
      "old plan" ready_withPlan rfl rfl (by decide) (by decide) (Or.inl ⟨rfl, rfl⟩)
      (fun _ _ => rfl) (fun _ _ => ⟨rfl, _, rfl, by decide⟩) with
  | ⟨_, _, _, _, hok, _, _, hprev, _, hlock⟩ => ⟨ready_withPlan, hok, hprev, hlock⟩

/-- C4 (counterexample). The guard marker exists and the `claude` executable
is not found: `runPlan` fails with the executable-not-found error, not with the
already-running error. -/
theorem guard_check_follows_cli_check :
    (withLock (initFS "P") lockPath).isSome = true ∧
    (runPlan noClaudeEnv "" "" "" "" ⟨withLock (initFS "P"), []⟩).1 = .error .claudeNotFound ∧
    (runPlan noClaudeEnv "" "" "" "" ⟨withLock (initFS "P"), []⟩).1 ≠ .error .alreadyRunning := by
  decide

/-- C4 (amended). For every argument combination and every tree-shaped
workspace state in which the guard marker exists, `runPlan` fails (with the
error of `checkCLIs` when an executable is not found, with the already-running
error otherwise), invokes no agent, and leaves the whole file system (marker,
`plan.md`, every round artifact) unchanged. -/
theorem guard_present_blocks_run (env : Env) (idea ideaFile hint hintFile : String) (fs : FS)
    (htree : TreeShaped fs) (hlock : (fs lockPath).isSome = true) :
    (runPlan env idea ideaFile hint hintFile ⟨fs, []⟩).1 =
        (match checkCLIs env with
          | .error e => .error e
          | .ok _ => .error .alreadyRunning) ∧
      (runPlan env idea ideaFile hint hintFile ⟨fs, []⟩).2.calls = [] ∧
      (runPlan env idea ideaFile hint hintFile ⟨fs, []⟩).2.fs = fs := by
  obtain ⟨h1, h2⟩ := htree
  have hw := h1 hlock
  have hb := h2 (by rw [hw]; rfl)
  simp only [lockPath_val, workspace_val, base_val] at hw hb hlock
  simp only [runPlan, hb, FS.mkdirAll, hw, lockPath_val, workspace_val, base_val]
  cases hc : checkCLIs env <;> simp [hlock]

/-- C4 (witness). An initialised workspace with the guard marker present and
both executables found. -/
theorem guard_present_blocks_run_witness :
    TreeShaped (withLock (initFS "P")) ∧ (withLock (initFS "P") lockPath).isSome = true ∧
    (runPlan echoEnv "an idea" "" "" "" ⟨withLock (initFS "P"), []⟩).1 = .error .alreadyRunning ∧
    (runPlan echoEnv "an idea" "" "" "" ⟨withLock (initFS "P"), []⟩).2.calls = [] ∧
    (runPlan echoEnv "an idea" "" "" "" ⟨withLock (initFS "P"), []⟩).2.fs =
      withLock (initFS "P") :=
  have h := guard_present_blocks_run echoEnv "an idea" "" "" "" (withLock (initFS "P"))
    ⟨by decide, by decide⟩ (by decide)
  ⟨⟨by decide, by decide⟩, by decide, h.1, h.2.1, h.2.2⟩

/-- C5 (counterexample). With `plan.md` present, no guard marker and a
non-empty `--idea`, `runPlan` fails with the idea-conflict error, but the guard
marker, absent before, has been created under the scratch directory. -/
theorem idea_conflict_creates_guard :
    (withPlan (initFS "P") "old plan" planPath).isSome = true ∧
    withPlan (initFS "P") "old plan" lockPath = none ∧
    (runPlan echoEnv "new idea" "" "" "" ⟨withPlan (initFS "P") "old plan", []⟩).1 =
      .error .ideaConflict ∧
    (runPlan echoEnv "new idea" "" "" "" ⟨withPlan (initFS "P") "old plan", []⟩).2.fs lockPath =
      some (.file "") := by
  decide

/-- C5 (amended). When `.llm-duet` is a directory, the scratch directory is a
directory or still to be made, both executables are found, `plan.md` exists, no
guard marker exists and a non-empty `--idea` or `--idea-file` is supplied:
`runPlan` fails with the idea-conflict error, no agent is invoked, the guard
marker has been created empty and is left in place, the scratch directory
exists, and every other path names what it named before. -/
theorem idea_conflict_leaves_only_guard (env : Env) (idea ideaFile hint hintFile : String)
    (fs : FS) (hb : fs base = some .dir) (hw : fs workspace = some .dir ∨ fs workspace = none)
    (hclaude : env.claudeFound = true) (hcodex : env.codexFound = true)
    (hplan : (fs planPath).isSome = true) (hlock : fs lockPath = none)
    (hidea : idea ≠ "" ∨ ideaFile ≠ "") :
    (runPlan env idea ideaFile hint hintFile ⟨fs, []⟩).1 = .error .ideaConflict ∧
      (runPlan env idea ideaFile hint hintFile ⟨fs, []⟩).2.calls = [] ∧
      (runPlan env idea ideaFile hint hintFile ⟨fs, []⟩).2.fs lockPath = some (.file "") ∧
      (runPlan env idea ideaFile hint hintFile ⟨fs, []⟩).2.fs workspace = some .dir ∧
      ∀ p, p ≠ lockPath → p ≠ workspace →
        (runPlan env idea ideaFile hint hintFile ⟨fs, []⟩).2.fs p = fs p := by
  simp at hb hw hplan hlock
  rcases hw with hw | hw <;> rcases hidea with hi | hi <;>
    simp [runPlan, hb, FS.mkdirAll, hw, checkCLIs, hclaude, hcodex, hlock, FS.writeFile,
      runPlanGuarded, fileExists, hplan, hi, Function.update_apply] <;>
    intro p h1 h2 <;> simp [h1, h2]

/-- C5 (witness). An initialised workspace with a plan and the idea "new idea". -/
theorem idea_conflict_leaves_only_guard_witness :
    (withPlan (initFS "P") "old plan" planPath).isSome = true ∧
    (runPlan echoEnv "new idea" "" "" "" ⟨withPlan (initFS "P") "old plan", []⟩).1 =
      .error .ideaConflict ∧
    (runPlan echoEnv "new idea" "" "" "" ⟨withPlan (initFS "P") "old plan", []⟩).2.calls = [] :=
  have h := idea_conflict_leaves_only_guard echoEnv "new idea" "" "" ""
    (withPlan (initFS "P") "old plan")
    (by decide) (Or.inl (by decide)) rfl rfl (by decide) (by decide) (Or.inl (by decide))
  ⟨by decide, h.1, h.2.1⟩

/-! ## What the validator accepts and rejects -/

/-- C6 (counterexample). A review whose only comment has all six keys and legal
`severity` and `kind`, but the empty string as `id`, is rejected. -/
theorem keys_and_enums_not_sufficient :
    allComments hasKeysAndEnums (sampleDecode emptyIdReview) = true ∧
      validateReviewJSON sampleDecode emptyIdReview = .error (.idInvalid 0) := by
  decide

/-- C6 (amended). A review that is an object whose `comments` is an array in
which every element is an object with all six keys, legal `severity` and
`kind`, a non-empty string as `id` and as `summary`, and a string or null as
`question_to_human` and as `auto_fix_proposal`, passes `validateReviewJSON`. -/
theorem conforming_comments_pass (decode : String → Option JSON) (data : String)
    (cs : List JSON) (hcs : commentsOf (decode data) = some cs)
    (hall : ∀ c ∈ cs, hasKeysAndEnums c = true ∧
      isNonEmptyString (commentField c "id") = true ∧
      isNonEmptyString (commentField c "summary") = true ∧
      isStringOrNull (commentField c "question_to_human") = true ∧
      isStringOrNull (commentField c "auto_fix_proposal") = true) :
    validateReviewJSON decode data = .ok () := by
  unfold validateReviewJSON
  rw [validateReviewDoc_of_comments hcs, validateComments_ok_iff]
  intro c hc
  obtain ⟨h1, h2, h3, h4, h5⟩ := hall c hc
  simp only [hasKeysAndEnums, Bool.and_eq_true] at h1
  simp [conforms, h1, h2, h3, h4, h5]

/-- C6 (witness). The sample review with one conforming comment. -/
theorem conforming_comments_pass_witness :
    commentsOf (sampleDecode goodReview) = some [goodComment] ∧
    validateReviewJSON sampleDecode goodReview = .ok () :=
  ⟨rfl, conforming_comments_pass sampleDecode goodReview [goodComment] rfl (by decide)⟩

/-- C7. An input that does not decode to a JSON object, and a JSON object
without a top-level `comments` key (whatever else it holds), is rejected by
`validateReviewJSON`: with the parse error, or with the comments-missing
error. -/
theorem non_object_or_missing_comments_rejected (decode : String → Option JSON) (data : String)
    (h : (∀ m, decode data ≠ some (.obj m)) ∨
      ∃ m, decode data = some (.obj m) ∧ rawField m "comments" = none) :
    validateReviewJSON decode data = .error .parse ∨
      validateReviewJSON decode data = .error .commentsMissing := by
  unfold validateReviewJSON
  rcases h with h | ⟨m, hm, hc⟩
  · rcases hd : decode data with _ | doc
    · simp [validateReviewDoc]
    · cases doc <;> simp [validateReviewDoc, unmarshalMap, rawField]
      exact absurd hd (h _)
  · simp [hm, validateReviewDoc, unmarshalMap, hc]

/-- C7 (witness). An object with a `reviews` key and no `comments` key. -/
theorem non_object_or_missing_comments_rejected_witness :
    (∃ m, sampleDecode "\x7b\"reviews\": []\x7d" = some (.obj m) ∧ rawField m "comments" = none) ∧
    (validateReviewJSON sampleDecode "\x7b\"reviews\": []\x7d" = .error .parse ∨
      validateReviewJSON sampleDecode "\x7b\"reviews\": []\x7d" = .error .commentsMissing) :=
  ⟨⟨[("reviews", .arr [])], rfl, rfl⟩,
   non_object_or_missing_comments_rejected sampleDecode "\x7b\"reviews\": []\x7d"
     (Or.inr ⟨[("reviews", .arr [])], rfl, rfl⟩)⟩

/-- C8 (the code at the failing input). The object `{"comments": null}` passes
`validateReviewJSON`, although its `comments` value is not an array. -/
theorem null_comments_accepted :
    validateReviewJSON sampleDecode "\x7b\"comments\": null\x7d" = .ok () := by
  decide

theorem comments_null_passes (decode : String → Option JSON) (data : String)
    (m : List (String × JSON)) (hm : decode data = some (.obj m))
    (hc : rawField m "comments" = some .null) :
    validateReviewJSON decode data = .ok () := by
  simp [validateReviewJSON, hm, validateReviewDoc, unmarshalMap, hc, unmarshalSlice,
    validateComments]

theorem comments_other_non_array_rejected (decode : String → Option JSON) (data : String)
    (m : List (String × JSON)) (v : JSON) (hm : decode data = some (.obj m))
    (hc : rawField m "comments" = some v) (hv : ∀ cs, v ≠ .arr cs) (hn : v ≠ .null) :
    validateReviewJSON decode data = .error .commentsFormat := by
  cases v <;> simp_all [validateReviewJSON, validateReviewDoc, unmarshalMap, unmarshalSlice]

/-- C9. A review whose `comments` array has an element whose `severity` is not
one of the three legal strings, or whose `kind` is not one of the seven legal
strings (a missing, non-string or null value included), is rejected. -/
theorem illegal_severity_or_kind_rejected (decode : String → Option JSON) (data : String)
    (cs : List JSON) (c : JSON) (hcs : commentsOf (decode data) = some cs) (hc : c ∈ cs)
    (hbad : isOneOf allowedSeverity (commentField c "severity") = false ∨
      isOneOf allowedKind (commentField c "kind") = false) :
    ∃ e, validateReviewJSON decode data = .error e := by
  refine validate_error_of_not_conforms hcs hc ?_
  rcases hbad with h | h <;> simp [conforms, h]

/-- C9 (witness). The sample review whose comment has severity "blocker". -/
theorem illegal_severity_or_kind_rejected_witness :
    commentsOf (sampleDecode badSeverityReview) = some [badSeverityComment] ∧
    isOneOf allowedSeverity (commentField badSeverityComment "severity") = false ∧
    ∃ e, validateReviewJSON sampleDecode badSeverityReview = .error e :=
  ⟨rfl, by decide,
   illegal_severity_or_kind_rejected sampleDecode badSeverityReview [badSeverityComment]
     badSeverityComment rfl (List.mem_singleton.2 rfl) (Or.inl (by decide))⟩

/-- C10. A review whose `comments` array has an element that lacks one of the
six required keys (an explicit null is a present key), or whose `id` or
`summary` is not a non-empty string, is rejected. -/
theorem missing_key_or_empty_id_summary_rejected (decode : String → Option JSON)
    (data : String) (cs : List JSON) (c : JSON)
    (hcs : commentsOf (decode data) = some cs) (hc : c ∈ cs)
    (hbad : (∃ k ∈ requiredKeys, commentField c k = none) ∨
      isNonEmptyString (commentField c "id") = false ∨
      isNonEmptyString (commentField c "summary") = false) :
    ∃ e, validateReviewJSON decode data = .error e := by
  refine validate_error_of_not_conforms hcs hc ?_
  rcases hbad with ⟨k, hk, hnone⟩ | h | h
  · have : hasRequiredKeys c = false := by
      simp only [hasRequiredKeys, Bool.and_eq_false_iff, List.all_eq_false]
      exact Or.inr ⟨k, hk, by simp [hnone]⟩
    simp [conforms, this]
  · simp [conforms, h]
  · simp [conforms, h]

/-- C10 (witness). The sample review whose comment has no `auto_fix_proposal`. -/
theorem missing_key_or_empty_id_summary_rejected_witness :
    commentsOf (sampleDecode missingKeyReview) = some [missingKeyComment] ∧
    commentField missingKeyComment "auto_fix_proposal" = none ∧
    ∃ e, validateReviewJSON sampleDecode missingKeyReview = .error e :=
  ⟨rfl, rfl,
   missing_key_or_empty_id_summary_rejected sampleDecode missingKeyReview [missingKeyComment]
     missingKeyComment rfl (List.mem_singleton.2 rfl)
     (Or.inl ⟨"auto_fix_proposal", by decide, rfl⟩)⟩

/-! ## The nullable fields and the wire schema -/

theorem isStringOrNull_of_isOtherValue {v : Option JSON} (h : isOtherValue v = true) :
    isStringOrNull v = false := by
  rcases v with _ | v
  · simp [isOtherValue] at h
  · cases v <;> simp_all [isOtherValue, isStringOrNull]

/-- C11. In a review whose comments are all valid apart from the two nullable
fields, the review passes when in every comment `question_to_human` and
`auto_fix_proposal` are each an explicit null or a string, and it is rejected
when in some comment one of the two is present with a number, boolean, array
or object value. -/
theorem nullable_fields_string_or_null (decode : String → Option JSON) (data : String)
    (cs : List JSON) (hcs : commentsOf (decode data) = some cs)
    (hvalid : ∀ c ∈ cs, otherwiseValid c = true) :
    ((∀ c ∈ cs, isStringOrNull (commentField c "question_to_human") = true ∧
        isStringOrNull (commentField c "auto_fix_proposal") = true) →
      validateReviewJSON decode data = .ok ()) ∧
    ((∃ c ∈ cs, isOtherValue (commentField c "question_to_human") = true ∨
        isOtherValue (commentField c "auto_fix_proposal") = true) →
      ∃ e, validateReviewJSON decode data = .error e) := by
  constructor
  · intro h
    unfold validateReviewJSON
    rw [validateReviewDoc_of_comments hcs, validateComments_ok_iff]
    intro c hc
    have hv := hvalid c hc
    simp only [otherwiseValid, hasKeysAndEnums, Bool.and_eq_true] at hv
    obtain ⟨⟨⟨h1, h2⟩, h3⟩, h4⟩ := hv
    simp [conforms, h1, h2, h3, h4, (h c hc).1, (h c hc).2]
  · rintro ⟨c, hc, hbad⟩
    refine validate_error_of_not_conforms hcs hc ?_
    rcases hbad with h | h <;> simp [conforms, isStringOrNull_of_isOtherValue h]

/-- C11 (witness). A comment with null and the empty string passes; a comment
with the number 5 as `question_to_human` is rejected. -/
theorem nullable_fields_string_or_null_witness :
    (commentsOf (sampleDecode goodReview) = some [goodComment] ∧
      validateReviewJSON sampleDecode goodReview = .ok ()) ∧
    (commentsOf (sampleDecode2 numberQuestionReview) = some [numberQuestionComment] ∧
      ∃ e, validateReviewJSON sampleDecode2 numberQuestionReview = .error e) :=
  ⟨⟨rfl, (nullable_fields_string_or_null sampleDecode goodReview [goodComment] rfl
      (by decide)).1 (by decide)⟩,
   ⟨rfl, (nullable_fields_string_or_null sampleDecode2 numberQuestionReview
      [numberQuestionComment] rfl (by decide)).2
      ⟨numberQuestionComment, List.mem_singleton.2 rfl, Or.inl (by decide)⟩⟩⟩

/-- C12. A review that conforms to the wire schema (an object with a `comments`
array, possibly empty, whose elements are objects with a non-empty string `id`,
a legal `severity`, a legal `kind`, a non-empty string `summary`, and a string
or null as `question_to_human` and as `auto_fix_proposal`) passes
`validateReviewJSON`; other keys of the object and of its comments, and the
content of the strings, play no part. -/
theorem wire_schema_review_passes (decode : String → Option JSON) (data : String)
    (cs : List JSON) (hcs : commentsOf (decode data) = some cs)
    (hall : ∀ c ∈ cs, conforms c = true) :
    validateReviewJSON decode data = .ok () := by
  unfold validateReviewJSON
  rw [validateReviewDoc_of_comments hcs, validateComments_ok_iff]
  exact hall

/-- C12 (witness). A conforming review with an unknown key at both levels, and
a review with an empty `comments` array. -/
theorem wire_schema_review_passes_witness :
    (commentsOf (sampleDecode2 extraKeysReview) = some [extraKeysComment] ∧
      validateReviewJSON sampleDecode2 extraKeysReview = .ok ()) ∧
    validateReviewJSON sampleDecode "\x7b\"comments\": []\x7d" = .ok () :=
  ⟨⟨rfl, wire_schema_review_passes sampleDecode2 extraKeysReview [extraKeysComment] rfl
      (by decide)⟩,
   wire_schema_review_passes sampleDecode "\x7b\"comments\": []\x7d" [] rfl (by decide)⟩

/-! ## The checks before the pipeline -/

/-- C14. When the planner or the reviewer executable is not found, `runPlan`
returns an error, invokes no agent, leaves the guard marker as it was (absent
stays absent), and writes no round artifact: every path other than `.llm-duet`
and the scratch directory names what it named before. -/
theorem missing_executable_stops_before_guard (env : Env)
    (idea ideaFile hint hintFile : String) (fs : FS)
    (h : env.claudeFound = false ∨ env.codexFound = false) :
    (∃ e, (runPlan env idea ideaFile hint hintFile ⟨fs, []⟩).1 = .error e) ∧
      (runPlan env idea ideaFile hint hintFile ⟨fs, []⟩).2.calls = [] ∧
      (runPlan env idea ideaFile hint hintFile ⟨fs, []⟩).2.fs lockPath = fs lockPath ∧
      (∀ p ∈ artifacts, (runPlan env idea ideaFile hint hintFile ⟨fs, []⟩).2.fs p = fs p) ∧
      ∀ p, p ≠ workspace → p ≠ base →
        (runPlan env idea ideaFile hint hintFile ⟨fs, []⟩).2.fs p = fs p := by
  have hcli : ∃ e, checkCLIs env = .error e := by
    unfold checkCLIs
    rcases h with h | h
    · exact ⟨.claudeNotFound, by simp [h]⟩
    · cases hc : env.claudeFound <;> simp [h]
  obtain ⟨e, he⟩ := hcli
  have key : ∀ p, p ≠ workspace → p ≠ base →
      (runPlan env idea ideaFile hint hintFile ⟨fs, []⟩).2.fs p = fs p ∧
      (∃ e, (runPlan env idea ideaFile hint hintFile ⟨fs, []⟩).1 = .error e) ∧
      (runPlan env idea ideaFile hint hintFile ⟨fs, []⟩).2.calls = [] := by
    intro p hw hb
    rcases hbase : fs ".llm-duet" with _ | node
    · simp [runPlan, hbase]
    · rcases hmk : fs.mkdirAll [".llm-duet/workspace", ".llm-duet"] with _ | fs1
      · simp [runPlan, hbase, hmk]
      · have hfr := mkdirAll_frame (by simpa using hmk) p hw hb
        simp [runPlan, hbase, hmk, he, hfr]
  refine ⟨(key lockPath (by decide) (by decide)).2.1, (key lockPath (by decide) (by decide)).2.2,
    (key lockPath (by decide) (by decide)).1, ?_, fun p hw hb => (key p hw hb).1⟩
  intro p hp
  have : p ≠ workspace ∧ p ≠ base := by
    revert p
    decide
  exact (key p this.1 this.2).1

/-- C14 (witness). An initialised workspace and no `codex` executable. -/
theorem missing_executable_stops_before_guard_witness :
    noCodexEnv.codexFound = false ∧
    (∃ e, (runPlan noCodexEnv "an idea" "" "" "" ⟨initFS "P", []⟩).1 = .error e) ∧
    (runPlan noCodexEnv "an idea" "" "" "" ⟨initFS "P", []⟩).2.fs lockPath = none :=
  have h := missing_executable_stops_before_guard noCodexEnv "an idea" "" "" "" (initFS "P")
    (Or.inr rfl)
  ⟨rfl, h.1, h.2.2.1.trans (by decide)⟩

/-- C15 (counterexample). No `plan.md`, no idea, and the guard marker present:
`runPlan` fails with the already-running error, not with the idea-required
error. -/
theorem idea_check_follows_guard_check :
    withLock (initFS "P") planPath = none ∧
    (runPlan echoEnv "" "" "" "" ⟨withLock (initFS "P"), []⟩).1 = .error .alreadyRunning ∧
    (runPlan echoEnv "" "" "" "" ⟨withLock (initFS "P"), []⟩).1 ≠ .error .ideaRequired := by
  decide

/-- C15 (amended). When `plan.md` does not exist and neither `--idea` nor
`--idea-file` is supplied, `runPlan` fails, invokes no agent and writes no round
artifact; the error is the idea-required error when `.llm-duet` is a directory,
the scratch directory is a directory or still to be made, both executables are
found and no guard marker exists (the marker is then created and left). -/
theorem no_idea_no_plan_fails (env : Env) (hint hintFile : String) (fs : FS)
    (hplan : fs planPath = none) :
    (∃ e, (runPlan env "" "" hint hintFile ⟨fs, []⟩).1 = .error e) ∧
      (runPlan env "" "" hint hintFile ⟨fs, []⟩).2.calls = [] ∧
      (∀ p ∈ artifacts, (runPlan env "" "" hint hintFile ⟨fs, []⟩).2.fs p = fs p) ∧
      (fs base = some .dir → (fs workspace = some .dir ∨ fs workspace = none) →
        env.claudeFound = true → env.codexFound = true → fs lockPath = none →
        (runPlan env "" "" hint hintFile ⟨fs, []⟩).1 = .error .ideaRequired ∧
        (runPlan env "" "" hint hintFile ⟨fs, []⟩).2.fs lockPath = some (.file "")) := by
  have key : ∀ p, p ≠ workspace → p ≠ base → p ≠ lockPath →
      (runPlan env "" "" hint hintFile ⟨fs, []⟩).2.fs p = fs p ∧
      (∃ e, (runPlan env "" "" hint hintFile ⟨fs, []⟩).1 = .error e) ∧
      (runPlan env "" "" hint hintFile ⟨fs, []⟩).2.calls = [] := by
    intro p hw hb hl
    simp only [planPath_val] at hplan
    rcases hbase : fs ".llm-duet" with _ | node
    · simp [runPlan, hbase]
    rcases hmk : fs.mkdirAll [".llm-duet/workspace", ".llm-duet"] with _ | fs1
    · simp [runPlan, hbase, hmk]
    have hfr := mkdirAll_frame (by simpa using hmk) p hw hb
    have hpl : fs1 "plan.md" = none := by
      have := @mkdirAll_frame fs fs1 (by simpa using hmk) planPath
        (by decide) (by decide)
      simp only [planPath_val] at this
      rw [this, hplan]
    rcases hcli : checkCLIs env with e | u
    · simp [runPlan, hbase, hmk, hcli, hfr]
    by_cases hlk : (fs1 ".llm-duet/workspace/lock").isSome = true
    · simp [runPlan, hbase, hmk, hcli, hlk, hfr]
    simp only [lockPath_val] at hl
    rcases hd : fs1 ".llm-duet/workspace/lock" with _ | node2
    · simp [runPlan, hbase, hmk, hcli, hd, FS.writeFile, runPlanGuarded, fileExists,
        Function.update_apply, hpl, hl, hfr]
    · simp [hd] at hlk
  refine ⟨(key planPath (by decide) (by decide) (by decide)).2.1,
    (key planPath (by decide) (by decide) (by decide)).2.2, ?_, ?_⟩
  · intro p hp
    have : p ≠ workspace ∧ p ≠ base ∧ p ≠ lockPath := by
      revert p
      decide
    exact (key p this.1 this.2.1 this.2.2).1
  · intro hb hw hclaude hcodex hlock
    simp at hb hw hplan hlock
    rcases hw with hw | hw <;>
      simp [runPlan, hb, FS.mkdirAll, hw, checkCLIs, hclaude, hcodex, hlock, FS.writeFile,
        runPlanGuarded, fileExists, hplan, Function.update_apply]

/-- C15 (witness). An initialised workspace without a plan and without an idea. -/
theorem no_idea_no_plan_fails_witness :
    initFS "P" planPath = none ∧
    (runPlan echoEnv "" "" "" "" ⟨initFS "P", []⟩).1 = .error .ideaRequired ∧
    (runPlan echoEnv "" "" "" "" ⟨initFS "P", []⟩).2.calls = [] :=
  have h := no_idea_no_plan_fails echoEnv "" "" (initFS "P") (by decide)
  ⟨by decide, (h.2.2.2 (by decide) (Or.inl (by decide)) rfl rfl (by decide)).1, h.2.1⟩

/-! ## The round inputs and the hint -/

theorem withDefault_ne_empty {placeholder : String} (h : placeholder ≠ "") (s : String) :
    withDefault placeholder s ≠ "" := by
  unfold withDefault
  split_ifs with hs
  · exact h
  · exact hs

theorem append_eq_empty {a b : String} (h : a ++ b = "") : a = "" ∧ b = "" := by
  have hd := congrArg String.data h
  simp only [String.data_append] at hd
  rw [List.append_eq_nil] at hd
  exact ⟨String.ext hd.1, String.ext hd.2⟩

/-- C16. The function `writePlannerInput` hands to `os.WriteFile` exactly the
four section headers in order, each followed by its body: idea, hint and plan
replaced by "(none)" when empty, the review replaced by an empty JSON object
when empty; no section body is empty. At the path the program uses
(`planner_input.txt` in the scratch directory), when the scratch directory is a
directory and the path is not taken by a directory, the write succeeds and the
file holds exactly this text. -/
theorem planner_input_format (ideaText hintText currentPlan reviewJSON : String) (w : World)
    (hdir : w.fs workspace = some .dir) (hfile : w.fs plannerInput ≠ some .dir) :
    writePlannerInput plannerInput ideaText hintText currentPlan reviewJSON w =
      (.ok (), ⟨Function.update w.fs plannerInput (some (.file
        ("--- IDEA ---\n" ++ withDefault "(none)" ideaText ++
          "\n\n--- HINT ---\n" ++ withDefault "(none)" hintText ++
          "\n\n--- CURRENT_PLAN ---\n" ++ withDefault "(none)" currentPlan ++
          "\n\n--- REVIEW_JSON ---\n" ++ withDefault "\x7b\x7d" reviewJSON ++ "\n"))),
        w.calls⟩) ∧
    (∀ path, writePlannerInput path ideaText hintText currentPlan reviewJSON =
      writeFileStep path
        ("--- IDEA ---\n" ++ withDefault "(none)" ideaText ++
          "\n\n--- HINT ---\n" ++ withDefault "(none)" hintText ++
          "\n\n--- CURRENT_PLAN ---\n" ++ withDefault "(none)" currentPlan ++
          "\n\n--- REVIEW_JSON ---\n" ++ withDefault "\x7b\x7d" reviewJSON ++ "\n")) ∧
    withDefault "(none)" ideaText ≠ "" ∧ withDefault "(none)" hintText ≠ "" ∧
    withDefault "(none)" currentPlan ≠ "" ∧ withDefault "\x7b\x7d" reviewJSON ≠ "" := by
  refine ⟨?_, fun path => ?_, withDefault_ne_empty (by decide) _,
    withDefault_ne_empty (by decide) _, withDefault_ne_empty (by decide) _,
    withDefault_ne_empty (by decide) _⟩
  · simp only [writePlannerInput, writeFileStep_apply, plannerInputText, withDefault,
      if_neg hfile]
  · simp only [writePlannerInput, plannerInputText, withDefault]

/-- C16 (witness). An idea and an empty hint, plan and review, written in a
freshly initialised workspace: the write succeeds and the file read back holds
the four sections with the placeholders. -/
theorem planner_input_format_witness :
    (initFS "P" workspace = some .dir ∧ initFS "P" plannerInput ≠ some .dir) ∧
    writePlannerInput plannerInput "Build a todo app" "" "" "" ⟨initFS "P", []⟩ =
      (.ok (), ⟨Function.update (initFS "P") plannerInput (some (.file
        ("--- IDEA ---\n" ++ withDefault "(none)" "Build a todo app" ++
          "\n\n--- HINT ---\n" ++ withDefault "(none)" "" ++
          "\n\n--- CURRENT_PLAN ---\n" ++ withDefault "(none)" "" ++
          "\n\n--- REVIEW_JSON ---\n" ++ withDefault "\x7b\x7d" "" ++ "\n"))), []⟩) ∧
    (writePlannerInput plannerInput "Build a todo app" "" "" "" ⟨initFS "P", []⟩).2.fs.readFile
        plannerInput =
      some ("--- IDEA ---\nBuild a todo app\n\n--- HINT ---\n(none)\n\n--- CURRENT_PLAN ---\n" ++
        "(none)\n\n--- REVIEW_JSON ---\n\x7b\x7d\n") :=
  ⟨⟨by decide, by decide⟩,
    (planner_input_format "Build a todo app" "" "" "" ⟨initFS "P", []⟩ (by decide)
      (by decide)).1,
    by decide⟩

/-- C18. When the hint file holds `fileHint` (or no hint file is given and
`fileHint` is empty), `mergeHint` returns the file content, a blank line and the
inline hint when both are non-empty, the file content alone when the inline
hint is empty, the inline hint alone when the file content is empty; the result
is empty only if both are empty. -/
theorem mergeHint_result (hint hintFile fileHint : String) (w : World)
    (hfile : (hintFile = "" ∧ fileHint = "") ∨
      (hintFile ≠ "" ∧ w.fs hintFile = some (.file fileHint))) :
    ∃ text, mergeHint hint hintFile w = (.ok text, w) ∧
      (fileHint ≠ "" → hint ≠ "" → text = fileHint ++ "\n\n" ++ hint) ∧
      (hint = "" → text = fileHint) ∧
      (fileHint = "" → text = hint) ∧
      (text = "" → fileHint = "" ∧ hint = "") := by
  have hrun : mergeHint hint hintFile w = (.ok (mergedHint fileHint hint), w) := by
    have := bind_mergeHint hint hintFile (fun t => (pure t : Step String)) w
    simp only [Step.pure_apply] at this
    have hb : (mergeHint hint hintFile >>= fun t => (pure t : Step String)) w =
        mergeHint hint hintFile w := by
      simp only [Step.bind_apply, Step.pure_apply]
      rcases mergeHint hint hintFile w with ⟨_ | _, _⟩ <;> rfl
    rw [hb] at this
    rw [this]
    rcases hfile with ⟨rfl, rfl⟩ | ⟨hne, hf⟩
    · simp
    · simp [hne, hf]
  refine ⟨mergedHint fileHint hint, hrun, ?_, ?_, ?_, ?_⟩
  · intro hf hh
    simp [mergedHint, hf, hh]
  · intro hh
    simp [mergedHint, hh]
  · intro hf
    by_cases hh : hint = "" <;> simp [mergedHint, hf, hh]
  · intro ht
    unfold mergedHint at ht
    split_ifs at ht with h1 h2
    · exact ⟨ht, h1⟩
    · exact ⟨h2, ht⟩
    · exact absurd (append_eq_empty ht).2 h1

/-- C18 (witness). A hint file holding "from file" and the inline hint "inline". -/
theorem mergeHint_result_witness :
    ∃ text, mergeHint "inline" "hint.txt"
        ⟨Function.update (initFS "P") "hint.txt" (some (.file "from file")), []⟩ =
        (.ok text, ⟨Function.update (initFS "P") "hint.txt" (some (.file "from file")), []⟩) ∧
      text = "from file" ++ "\n\n" ++ "inline" :=
  match mergeHint_result "inline" "hint.txt" "from file"
      ⟨Function.update (initFS "P") "hint.txt" (some (.file "from file")), []⟩
      (Or.inr ⟨by decide, by decide⟩) with
  | ⟨text, hrun, hboth, _, _, _⟩ => ⟨text, hrun, hboth (by decide) (by decide)⟩

theorem guarded_ignores_ideaFile (env : Env) (idea ideaFile hint hintFile : String) (w : World)
    (hidea : idea ≠ "") :
    runPlanGuarded env idea ideaFile hint hintFile w = runPlanGuarded env idea "" hint hintFile w := by
  unfold runPlanGuarded
  simp [hidea]

theorem runPlan_ignores_ideaFile (env : Env) (idea ideaFile hint hintFile : String) (w : World)
    (hidea : idea ≠ "") :
    runPlan env idea ideaFile hint hintFile w = runPlan env idea "" hint hintFile w := by
  unfold runPlan
  simp only [guarded_ignores_ideaFile env idea ideaFile hint hintFile _ hidea]

/-! ## The invocations of a run -/

set_option maxHeartbeats 4000000 in
theorem initial_trace (env : Env) (ideaText hintText : String) (fs : FS)
    (r : Except PlanError Unit) (w1 : World)
    (hrun : runPlanInitial env ideaText hintText ⟨fs, []⟩ = (r, w1)) :
    (r = .ok () → w1.calls.map (fun c => c.agent) = [.planner, .reviewer, .planner]) ∧
      (∀ c ∈ w1.calls, c.agent = .planner →
        ∃ plan review, c.input = plannerInputText ideaText hintText plan review) := by
  simp only [runPlanInitial, writePlannerInput, writeReviewerInput, bind_writeFileStep,
    bind_readFileStep, bind_runClaude, bind_runCodex, bind_validateStep, copyFile_apply,
    Step.bind_assoc] at hrun
  simp [afterReviewer_apply] at hrun ⊢
  repeat' split at hrun
  all_goals (simp at hrun; obtain ⟨rfl, rfl⟩ := hrun)
  all_goals simp

set_option maxHeartbeats 4000000 in
theorem update_trace (env : Env) (hintText : String) (fs : FS)
    (r : Except PlanError Unit) (w1 : World)
    (hrun : runPlanUpdate env hintText ⟨fs, []⟩ = (r, w1)) :
    (r = .ok () → w1.calls.map (fun c => c.agent) = [.reviewer, .planner]) ∧
      (∀ c ∈ w1.calls, c.agent = .reviewer →
        ∃ prompt plan, fs reviewerPrompt = some (.file prompt) ∧
          fs planPath = some (.file plan) ∧ c.input = reviewerInputText prompt plan) := by
  simp only [runPlanUpdate, writePlannerInput, writeReviewerInput, bind_writeFileStep,
    bind_readFileStep, bind_runClaude, bind_runCodex, bind_validateStep, writeFileStep_apply,
    copyFile, Step.bind_assoc] at hrun
  simp [afterReviewer_apply] at hrun ⊢
  repeat' split at hrun
  all_goals (simp at hrun; obtain ⟨rfl, rfl⟩ := hrun)
  all_goals simp
  all_goals exact ⟨_, by assumption, _, by assumption, rfl⟩

theorem guarded_cases (env : Env) (idea ideaFile hint hintFile : String) (fs : FS)
    (r : Except PlanError Unit) (w1 : World)
    (hrun : runPlanGuarded env idea ideaFile hint hintFile ⟨fs, []⟩ = (r, w1)) :
    (∃ e, r = .error e ∧ w1.calls = []) ∨
      (fileExists fs planPath = true ∧
        ∃ hintText, runPlanUpdate env hintText ⟨fs, []⟩ = (r, w1)) ∨
      (fileExists fs planPath = false ∧
        ∃ ideaText hintText, (idea ≠ "" → ideaText = idea) ∧
          runPlanInitial env ideaText hintText ⟨fs, []⟩ = (r, w1)) := by
  unfold runPlanGuarded at hrun
  split_ifs at hrun
  all_goals (try simp only [bind_readOptionalFile, bind_mergeHint, Step.pure_bind] at hrun)
  all_goals (repeat' split at hrun)
  all_goals first
    | (simp only [Prod.mk.injEq] at hrun
       obtain ⟨rfl, rfl⟩ := hrun
       exact Or.inl ⟨_, rfl, rfl⟩)
    | (with_reducible exact Or.inr (Or.inl ⟨by assumption, _, hrun⟩))
    | (with_reducible refine Or.inr (Or.inr ⟨?_, _, _, ?_, hrun⟩)
       · simpa using (by assumption : ¬fileExists fs planPath = true)
       · first
           | exact fun _ => rfl
           | exact fun h => absurd (by assumption) h)

theorem runPlan_cases (env : Env) (idea ideaFile hint hintFile : String) (fs : FS)
    (r : Except PlanError Unit) (w1 : World)
    (hrun : runPlan env idea ideaFile hint hintFile ⟨fs, []⟩ = (r, w1)) :
    (∃ e, r = .error e ∧ w1.calls = []) ∨
      ∃ fs2 w2, (∀ p, p ≠ base → p ≠ workspace → p ≠ lockPath → fs2 p = fs p) ∧
        runPlanGuarded env idea ideaFile hint hintFile ⟨fs2, []⟩ = (r, w2) ∧
          w1.calls = w2.calls := by
  unfold runPlan at hrun
  split at hrun
  · simp at hrun; obtain ⟨rfl, rfl⟩ := hrun; exact Or.inl ⟨_, rfl, rfl⟩
  split at hrun
  · simp at hrun; obtain ⟨rfl, rfl⟩ := hrun; exact Or.inl ⟨_, rfl, rfl⟩
  rename_i fs1 hmk
  split at hrun
  · simp at hrun; obtain ⟨rfl, rfl⟩ := hrun; exact Or.inl ⟨_, rfl, rfl⟩
  split at hrun
  · simp at hrun; obtain ⟨rfl, rfl⟩ := hrun; exact Or.inl ⟨_, rfl, rfl⟩
  split at hrun
  · simp at hrun; obtain ⟨rfl, rfl⟩ := hrun; exact Or.inl ⟨_, rfl, rfl⟩
  rename_i fs2 hwr
  have hfs2 : fs2 = Function.update fs1 lockPath (some (.file "")) := by
    simp only [FS.writeFile] at hwr
    split at hwr <;> simp at hwr
    exact hwr.symm
  have hframe : ∀ p, p ≠ base → p ≠ workspace → p ≠ lockPath → fs2 p = fs p := by
    intro p hb hw hl
    rw [hfs2, Function.update_apply, if_neg hl]
    exact mkdirAll_frame hmk p hw hb
  split at hrun
  all_goals (rename_i hg)
  all_goals (simp only [Prod.mk.injEq] at hrun; obtain ⟨rfl, rfl⟩ := hrun)
  · exact Or.inr ⟨_, _, hframe, hg, rfl⟩
  · exact Or.inr ⟨_, _, hframe, hg, rfl⟩

theorem runPlan_trace (env : Env) (idea ideaFile hint hintFile : String) (fs : FS)
    (r : Except PlanError Unit) (w1 : World)
    (hrun : runPlan env idea ideaFile hint hintFile ⟨fs, []⟩ = (r, w1)) :
    (r = .ok () → w1.calls.map (fun c => c.agent) =
        if fileExists fs planPath then [.reviewer, .planner]
        else [.planner, .reviewer, .planner]) ∧
      (fileExists fs planPath = true → ∀ c ∈ w1.calls, c.agent = .reviewer →
        ∃ prompt plan, fs reviewerPrompt = some (.file prompt) ∧
          fs planPath = some (.file plan) ∧ c.input = reviewerInputText prompt plan) ∧
      (fileExists fs planPath = false → idea ≠ "" → ∀ c ∈ w1.calls, c.agent = .planner →
        ∃ hintText plan review, c.input = plannerInputText idea hintText plan review) := by
  rcases runPlan_cases _ _ _ _ _ _ _ _ hrun with ⟨e, rfl, hc⟩ | ⟨fs2, w2, hframe, hg, hc⟩
  · simp [hc]
  have hplan : fs2 planPath = fs planPath := hframe _ (by decide) (by decide) (by decide)
  have hprompt : fs2 reviewerPrompt = fs reviewerPrompt :=
    hframe _ (by decide) (by decide) (by decide)
  have hex : fileExists fs2 planPath = fileExists fs planPath := by
    simp only [fileExists, hplan]
  rw [hc]
  rcases guarded_cases _ _ _ _ _ _ _ _ hg with ⟨e, rfl, hc2⟩ | ⟨hx, hintText, hu⟩ |
    ⟨hx, ideaText, hintText, hid, hi⟩
  · simp [hc2]
  · rw [hex] at hx
    obtain ⟨h1, h2⟩ := update_trace _ _ _ _ _ hu
    refine ⟨fun hr => by rw [h1 hr, hx]; rfl, fun _ c hcm hca => ?_, fun h => ?_⟩
    · rw [← hprompt, ← hplan]
      exact h2 c hcm hca
    · rw [hx] at h; exact absurd h (by decide)
  · rw [hex] at hx
    obtain ⟨h1, h2⟩ := initial_trace _ _ _ _ _ _ hi
    refine ⟨fun hr => by rw [h1 hr, hx]; rfl, fun h => ?_, fun _ hne c hcm hca => ?_⟩
    · rw [hx] at h; exact absurd h (by decide)
    · obtain ⟨plan, review, h⟩ := h2 c hcm hca
      exact ⟨hintText, plan, review, by rw [h, hid hne]⟩

theorem runPlan_trace_run (env : Env) (idea ideaFile hint hintFile : String) (fs : FS) :
    ((runPlan env idea ideaFile hint hintFile ⟨fs, []⟩).1 = .ok () →
      (runPlan env idea ideaFile hint hintFile ⟨fs, []⟩).2.calls.map (fun c => c.agent) =
        if fileExists fs planPath then [.reviewer, .planner]
        else [.planner, .reviewer, .planner]) ∧
      (fileExists fs planPath = true →
        ∀ c ∈ (runPlan env idea ideaFile hint hintFile ⟨fs, []⟩).2.calls, c.agent = .reviewer →
        ∃ prompt plan, fs reviewerPrompt = some (.file prompt) ∧
          fs planPath = some (.file plan) ∧ c.input = reviewerInputText prompt plan) ∧
      (fileExists fs planPath = false → idea ≠ "" →
        ∀ c ∈ (runPlan env idea ideaFile hint hintFile ⟨fs, []⟩).2.calls, c.agent = .planner →
        ∃ hintText plan review, c.input = plannerInputText idea hintText plan review) :=
  runPlan_trace env idea ideaFile hint hintFile fs
    (runPlan env idea ideaFile hint hintFile ⟨fs, []⟩).1
    (runPlan env idea ideaFile hint hintFile ⟨fs, []⟩).2 rfl

/-- C13 (counterexample). A successful run of the initial flow invokes the
planner twice: once for the draft and once for the final generation. -/
theorem initial_flow_invokes_planner_twice :
    (runPlan echoEnv "Build a todo app" "" "" "" ⟨initFS "P", []⟩).1 = .ok () ∧
    (runPlan echoEnv "Build a todo app" "" "" "" ⟨initFS "P", []⟩).2.calls.map
        (fun c => c.agent) = [.planner, .reviewer, .planner] ∧
    ((runPlan echoEnv "Build a todo app" "" "" "" ⟨initFS "P", []⟩).2.calls.map
        (fun c => c.agent)).count .planner = 2 :=
  ⟨by decide, by decide, by decide⟩

/-- C13 (amended). Every successful run of `runPlan` invokes the reviewer
exactly once; it invokes the planner exactly once in the update flow (after the
reviewer) and exactly twice in the initial flow (before and after the
reviewer). -/
theorem successful_run_invocations (env : Env) (idea ideaFile hint hintFile : String) (fs : FS)
    (hok : (runPlan env idea ideaFile hint hintFile ⟨fs, []⟩).1 = .ok ()) :
    ((runPlan env idea ideaFile hint hintFile ⟨fs, []⟩).2.calls.map
        (fun c => c.agent)).count .reviewer = 1 ∧
    ((runPlan env idea ideaFile hint hintFile ⟨fs, []⟩).2.calls.map
        (fun c => c.agent)).count .planner = (if fileExists fs planPath then 1 else 2) ∧
    (runPlan env idea ideaFile hint hintFile ⟨fs, []⟩).2.calls.map (fun c => c.agent) =
      (if fileExists fs planPath then [.reviewer, .planner]
       else [.planner, .reviewer, .planner]) := by
  have h := (runPlan_trace_run env idea ideaFile hint hintFile fs).1 hok
  rw [h]
  by_cases hx : fileExists fs planPath = true
  · simp only [hx, if_true]
    exact ⟨by decide, by decide, trivial⟩
  · simp only [hx]
    exact ⟨by decide, by decide, trivial⟩

/-- C13 (witness). The update flow on an initialised workspace with a plan. -/
theorem successful_run_invocations_witness :
    (runPlan echoEnv "" "" "" "" ⟨withPlan (initFS "P") "old plan", []⟩).1 = .ok () ∧
    ((runPlan echoEnv "" "" "" "" ⟨withPlan (initFS "P") "old plan", []⟩).2.calls.map
        (fun c => c.agent)).count .reviewer = 1 ∧
    ((runPlan echoEnv "" "" "" "" ⟨withPlan (initFS "P") "old plan", []⟩).2.calls.map
        (fun c => c.agent)).count .planner = 1 :=
  ⟨by decide,
    (successful_run_invocations echoEnv "" "" "" "" (withPlan (initFS "P") "old plan")
      (by decide)).1,
    (successful_run_invocations echoEnv "" "" "" "" (withPlan (initFS "P") "old plan")
      (by decide)).2.1⟩

/-- C17. When the prompt file holds `Q` and the plan file holds `P`, the
function `writeReviewerInput` hands to `os.WriteFile` exactly the marker line,
`Q`, a blank line, the plan header line, `P` and a newline; at the path the
program uses (`reviewer_input.txt` in the scratch directory), when the scratch
directory is a directory and the path is not taken by a directory, the write
succeeds and the file holds exactly this text. In a run of `runPlan` on an
existing `plan.md` with content `P`, every reviewer invocation reads this text
built from the reviewer prompt file and `P`, and a successful run has exactly
one such invocation. -/
theorem reviewer_input_format (env : Env) (idea ideaFile hint hintFile : String)
    (promptPath planFile Q P : String) (w : World) (fs : FS)
    (hprompt : w.fs promptPath = some (.file Q)) (hplan : w.fs planFile = some (.file P))
    (hdir : w.fs workspace = some .dir) (hpath : w.fs reviewerInput ≠ some .dir)
    (hpre : fs planPath = some (.file P)) :
    writeReviewerInput reviewerInput promptPath planFile w =
      (.ok (), ⟨Function.update w.fs reviewerInput (some (.file
        ("[REVIEW_PROMPT]\n" ++ Q ++ "\n\n--- PLAN_MD ---\n" ++ P ++ "\n"))), w.calls⟩) ∧
    (∀ path, writeReviewerInput path promptPath planFile w =
      writeFileStep path ("[REVIEW_PROMPT]\n" ++ Q ++ "\n\n--- PLAN_MD ---\n" ++ P ++ "\n") w) ∧
    (∀ c ∈ (runPlan env idea ideaFile hint hintFile ⟨fs, []⟩).2.calls, c.agent = .reviewer →
      ∃ prompt, fs reviewerPrompt = some (.file prompt) ∧
        c.input = "[REVIEW_PROMPT]\n" ++ prompt ++ "\n\n--- PLAN_MD ---\n" ++ P ++ "\n") ∧
    ((runPlan env idea ideaFile hint hintFile ⟨fs, []⟩).1 = .ok () →
      (runPlan env idea ideaFile hint hintFile ⟨fs, []⟩).2.calls.map (fun c => c.agent) =
        [.reviewer, .planner]) := by
  have hx : fileExists fs planPath = true := by simp only [fileExists, hpre, Option.isSome_some]
  obtain ⟨h1, h2, -⟩ := runPlan_trace_run env idea ideaFile hint hintFile fs
  refine ⟨?_, fun path => ?_, fun c hc ha => ?_, fun hok => ?_⟩
  · simp only [writeReviewerInput, bind_readFileStep, hprompt, hplan, writeFileStep_apply,
      reviewerInputText, if_neg hpath]
  · simp only [writeReviewerInput, bind_readFileStep, hprompt, hplan, reviewerInputText]
  · obtain ⟨prompt, plan, hq, hp, hin⟩ := h2 hx c hc ha
    rw [hpre] at hp
    cases hp
    exact ⟨prompt, hq, hin⟩
  · rw [h1 hok, hx]
    rfl

/-- C17 (witness). The update flow on an initialised workspace whose reviewer
prompt is "Q" and whose plan is "old plan". -/
theorem reviewer_input_format_witness :
    writeReviewerInput reviewerInput reviewerPrompt planPath
        ⟨withPlan (initFS "Q") "old plan", []⟩ =
      (.ok (), ⟨Function.update (withPlan (initFS "Q") "old plan") reviewerInput (some (.file
        ("[REVIEW_PROMPT]\n" ++ "Q" ++ "\n\n--- PLAN_MD ---\n" ++ "old plan" ++ "\n"))), []⟩) ∧
    (runPlan echoEnv "" "" "" "" ⟨withPlan (initFS "Q") "old plan", []⟩).1 = .ok () ∧
    (runPlan echoEnv "" "" "" "" ⟨withPlan (initFS "Q") "old plan", []⟩).2.calls.map
        (fun c => c.agent) = [.reviewer, .planner] :=
  ⟨(reviewer_input_format echoEnv "" "" "" "" reviewerPrompt planPath "Q" "old plan"
      ⟨withPlan (initFS "Q") "old plan", []⟩ (withPlan (initFS "Q") "old plan")
      (by decide) (by decide) (by decide) (by decide) (by decide)).1,
    by decide,
    (reviewer_input_format echoEnv "" "" "" "" reviewerPrompt planPath "Q" "old plan"
      ⟨withPlan (initFS "Q") "old plan", []⟩ (withPlan (initFS "Q") "old plan")
      (by decide) (by decide) (by decide) (by decide) (by decide)).2.2.2 (by decide)⟩

/-- C20. With a non-empty inline idea, the run does not depend on the idea
file argument (it equals the run with no idea file, so the file is not read and
a missing file causes no error); in the initial flow the idea section of every
planner input is the inline text, and a successful run has exactly two planner
invocations. -/
theorem inline_idea_overrides_idea_file (env : Env) (idea ideaFile hint hintFile : String)
    (fs : FS) (hidea : idea ≠ "") (hplan : fs planPath = none) :
    (∀ w, runPlan env idea ideaFile hint hintFile w = runPlan env idea "" hint hintFile w) ∧
    (∀ c ∈ (runPlan env idea ideaFile hint hintFile ⟨fs, []⟩).2.calls, c.agent = .planner →
      ∃ h p r, c.input = "--- IDEA ---\n" ++ idea ++ "\n\n--- HINT ---\n" ++ h ++
        "\n\n--- CURRENT_PLAN ---\n" ++ p ++ "\n\n--- REVIEW_JSON ---\n" ++ r ++ "\n") ∧
    ((runPlan env idea ideaFile hint hintFile ⟨fs, []⟩).1 = .ok () →
      (runPlan env idea ideaFile hint hintFile ⟨fs, []⟩).2.calls.map (fun c => c.agent) =
        [.planner, .reviewer, .planner]) := by
  have hx : fileExists fs planPath = false := by simp only [fileExists, hplan, Option.isSome_none]
  obtain ⟨h1, -, h3⟩ := runPlan_trace_run env idea ideaFile hint hintFile fs
  refine ⟨fun w => runPlan_ignores_ideaFile env idea ideaFile hint hintFile w hidea,
    fun c hc ha => ?_, fun hok => ?_⟩
  · obtain ⟨hintText, plan, review, hin⟩ := h3 hx hidea c hc ha
    refine ⟨withDefault "(none)" hintText, withDefault "(none)" plan,
      withDefault "\x7b\x7d" review, ?_⟩
    rw [hin]
    simp only [plannerInputText, withDefault, if_neg hidea]
  · rw [h1 hok, hx]
    rfl

/-- C20 (witness). An initial run with the inline idea "Build a todo app" and
an idea file that does not exist. -/
theorem inline_idea_overrides_idea_file_witness :
    initFS "P" "missing.txt" = none ∧
    (runPlan echoEnv "Build a todo app" "missing.txt" "" "" ⟨initFS "P", []⟩).1 = .ok () ∧
    (runPlan echoEnv "Build a todo app" "missing.txt" "" "" ⟨initFS "P", []⟩).2.calls.map
        (fun c => c.agent) = [.planner, .reviewer, .planner] ∧
    (runPlan echoEnv "" "missing.txt" "" "" ⟨initFS "P", []⟩).1 = .error (.io "missing.txt") :=
  ⟨by decide, by decide,
    (inline_idea_overrides_idea_file echoEnv "Build a todo app" "missing.txt" "" "" (initFS "P")
      (by decide) (by decide)).2.2 (by decide),
    by decide⟩

/-! ## The command `init` -/

theorem mkdirChain_workspace : mkdirChain workspace = [workspace, base] := by decide

theorem mkdirAll_keeps (chain : List String) (fs fs1 : FS) (h : fs.mkdirAll chain = some fs1)
    (p : String) (hp : (fs p).isSome) : fs1 p = fs p := by
  induction chain generalizing fs1 with
  | nil => simp only [FS.mkdirAll, Option.some.injEq] at h; rw [← h]
  | cons d ps ih =>
    simp only [FS.mkdirAll] at h
    rcases hd : fs d with _ | (c | _)
    · rw [hd] at h
      rcases hm : fs.mkdirAll ps with _ | fs0
      · simp [hm] at h
      · simp only [hm, Option.some.injEq] at h
        rw [← h, Function.update_apply]
        split_ifs with hpd
        · rw [hpd, hd] at hp; exact absurd hp (by simp)
        · exact ih fs0 hm
    · simp [hd] at h
    · simp only [hd, Option.some.injEq] at h; rw [← h]

theorem mkdirAll_head (d : String) (ps : List String) (fs fs1 : FS)
    (h : fs.mkdirAll (d :: ps) = some fs1) : fs1 d = some .dir := by
  simp only [FS.mkdirAll] at h
  rcases hd : fs d with _ | (c | _)
  · rw [hd] at h
    rcases hm : fs.mkdirAll ps with _ | fs0
    · simp [hm] at h
    · simp only [hm, Option.some.injEq] at h
      rw [← h, Function.update_same]
  · simp [hd] at h
  · simp only [hd, Option.some.injEq] at h; rw [← h]; exact hd

theorem mkdirAll_of_dir (d : String) (ps : List String) (fs : FS) (h : fs d = some .dir) :
    fs.mkdirAll (d :: ps) = some fs := by
  simp only [FS.mkdirAll, h]

theorem mkdirEach_keeps (ds : List String) (fs fs1 : FS) (r : Except InitError Unit)
    (h : mkdirEach fs ds = (r, fs1)) (p : String) (hp : (fs p).isSome) : fs1 p = fs p := by
  induction ds generalizing fs with
  | nil => simp only [mkdirEach, Prod.mk.injEq] at h; rw [← h.2]
  | cons d ds ih =>
    simp only [mkdirEach] at h
    rcases hm : fs.mkdirAll (mkdirChain d) with _ | fs0
    · simp only [hm, Prod.mk.injEq] at h; rw [← h.2]
    · simp only [hm] at h
      have h0 := mkdirAll_keeps _ _ _ hm p hp
      rw [ih fs0 h (by rw [h0]; exact hp), h0]

theorem mkdirEach_idem (ds : List String) (fs fs1 : FS) (r : Except InitError Unit)
    (h : mkdirEach fs ds = (r, fs1)) : mkdirEach fs1 ds = (r, fs1) := by
  induction ds generalizing fs with
  | nil =>
    simp only [mkdirEach, Prod.mk.injEq] at h ⊢
    exact ⟨h.1, trivial⟩
  | cons d ds ih =>
    simp only [mkdirEach] at h
    rcases hm : fs.mkdirAll (mkdirChain d) with _ | fs0
    · simp only [hm, Prod.mk.injEq] at h
      obtain ⟨rfl, rfl⟩ := h
      simp only [mkdirEach, hm]
    · simp only [hm] at h
      have hd0 : fs0 d = some .dir := mkdirAll_head d _ fs fs0 hm
      have hd1 : fs1 d = some .dir := by
        rw [mkdirEach_keeps ds fs0 fs1 r h d (by rw [hd0]; rfl), hd0]
      simp only [mkdirEach, mkdirChain, mkdirAll_of_dir d _ fs1 hd1]
      exact ih fs0 h

theorem mkdirEach_dirs (ds : List String) (fs fs1 : FS)
    (h : mkdirEach fs ds = (.ok (), fs1)) : ∀ d ∈ ds, fs1 d = some .dir := by
  induction ds generalizing fs with
  | nil => simp
  | cons d ds ih =>
    simp only [mkdirEach] at h
    rcases hm : fs.mkdirAll (mkdirChain d) with _ | fs0
    · simp [hm] at h
    · simp only [hm] at h
      have hd0 : fs0 d = some .dir := mkdirAll_head d _ fs fs0 hm
      intro x hx
      rcases List.mem_cons.1 hx with rfl | hx
      · rw [mkdirEach_keeps ds fs0 fs1 _ h x (by rw [hd0]; rfl), hd0]
      · exact ih fs0 h x hx

theorem mkdirEach_of_dirs (ds : List String) (fs : FS) (h : ∀ d ∈ ds, fs d = some .dir) :
    mkdirEach fs ds = (.ok (), fs) := by
  induction ds with
  | nil => rfl
  | cons d ds ih =>
    simp only [mkdirEach, mkdirChain, mkdirAll_of_dir d _ fs (h d (List.mem_cons_self _ _))]
    exact ih (fun x hx => h x (List.mem_cons_of_mem _ hx))

theorem writeIfNotExists_eq (fs : FS) (path content : String) :
    writeIfNotExists fs path content =
      .ok (if (fs path).isSome then fs else Function.update fs path (some (.file content))) := by
  unfold writeIfNotExists fileExists FS.writeFile
  rcases h : fs path with _ | (c | _) <;> simp

theorem writeIfNotExists_keeps (fs fs1 : FS) (path content : String)
    (h : writeIfNotExists fs path content = .ok fs1) (p : String) (hp : (fs p).isSome) :
    fs1 p = fs p := by
  rw [writeIfNotExists_eq] at h
  injection h with h
  rw [← h]
  split_ifs with hx
  · rfl
  · rw [Function.update_apply]
    split_ifs with hpp
    · rw [hpp] at hp; exact absurd hp hx
    · rfl

theorem writeIfNotExists_exists (fs fs1 : FS) (path content : String)
    (h : writeIfNotExists fs path content = .ok fs1) : (fs1 path).isSome := by
  rw [writeIfNotExists_eq] at h
  injection h with h
  rw [← h]
  split_ifs with hx
  · exact hx
  · simp

theorem writeIfNotExists_of_exists (fs : FS) (path content : String) (h : (fs path).isSome) :
    writeIfNotExists fs path content = .ok fs := by
  rw [writeIfNotExists_eq, if_pos h]

theorem writeIfNotExists_ok (fs : FS) (path content : String) :
    ∃ fs1, writeIfNotExists fs path content = .ok fs1 :=
  ⟨_, writeIfNotExists_eq fs path content⟩

theorem isSome_of_keeps {fs fs1 : FS} (hk : ∀ p, (fs p).isSome → fs1 p = fs p) {p : String}
    (hp : (fs p).isSome) : (fs1 p).isSome := by
  rw [hk p hp]; exact hp

theorem runInit_keeps (fs : FS) (p : String) (hp : (fs p).isSome) : (runInit fs).2 p = fs p := by
  simp only [runInit]
  rcases hm : mkdirEach fs (enumerateUnique [base, workspace, filepathJoin base "prompts",
    filepathJoin base "config"]) with ⟨_ | _, fs1⟩
  · exact mkdirEach_keeps _ _ _ _ hm p hp
  · have k1 := mkdirEach_keeps _ _ _ _ hm
    obtain ⟨fs2, h2⟩ := writeIfNotExists_ok fs1
      (filepathJoin (filepathJoin base "prompts") "planner.txt") defaultPlannerPrompt
    obtain ⟨fs3, h3⟩ := writeIfNotExists_ok fs2
      (filepathJoin (filepathJoin base "prompts") "reviewer.txt") defaultReviewerPrompt
    obtain ⟨fs4, h4⟩ := writeIfNotExists_ok fs3 gitignorePath "workspace/\n"
    have k2 := writeIfNotExists_keeps _ _ _ _ h2
    have k3 := writeIfNotExists_keeps _ _ _ _ h3
    have k4 := writeIfNotExists_keeps _ _ _ _ h4
    simp only [h2, h3, h4]
    have hp1 := isSome_of_keeps k1 hp
    have hp2 := isSome_of_keeps k2 hp1
    have hp3 := isSome_of_keeps k3 hp2
    rw [k4 p hp3, k3 p hp2, k2 p hp1, k1 p hp]

theorem runInit_idem (fs : FS) : runInit (runInit fs).2 = runInit fs := by
  simp only [runInit]
  rcases hm : mkdirEach fs (enumerateUnique [base, workspace, filepathJoin base "prompts",
    filepathJoin base "config"]) with ⟨e | _, fs1⟩
  · simp only [mkdirEach_idem _ _ _ _ hm]
  · obtain ⟨fs2, h2⟩ := writeIfNotExists_ok fs1
      (filepathJoin (filepathJoin base "prompts") "planner.txt") defaultPlannerPrompt
    obtain ⟨fs3, h3⟩ := writeIfNotExists_ok fs2
      (filepathJoin (filepathJoin base "prompts") "reviewer.txt") defaultReviewerPrompt
    obtain ⟨fs4, h4⟩ := writeIfNotExists_ok fs3 gitignorePath "workspace/\n"
    have k2 := writeIfNotExists_keeps _ _ _ _ h2
    have k3 := writeIfNotExists_keeps _ _ _ _ h3
    have k4 := writeIfNotExists_keeps _ _ _ _ h4
    have e2 := writeIfNotExists_exists _ _ _ _ h2
    have e3 := writeIfNotExists_exists _ _ _ _ h3
    have e4 := writeIfNotExists_exists _ _ _ _ h4
    simp only [h2, h3, h4]
    have hdirs : ∀ d ∈ enumerateUnique [base, workspace, filepathJoin base "prompts",
        filepathJoin base "config"], fs4 d = some .dir := by
      intro d hd
      have h1 := mkdirEach_dirs _ _ _ hm d hd
      have s1 : (fs1 d).isSome := by rw [h1]; rfl
      have s2 := isSome_of_keeps k2 s1
      have s3 := isSome_of_keeps k3 s2
      rw [k4 d s3, k3 d s2, k2 d s1, h1]
    simp only [mkdirEach_of_dirs _ _ hdirs,
      writeIfNotExists_of_exists fs4 _ defaultPlannerPrompt
        (isSome_of_keeps k4 (isSome_of_keeps k3 e2)),
      writeIfNotExists_of_exists fs4 _ defaultReviewerPrompt (isSome_of_keeps k4 e3),
      writeIfNotExists_of_exists fs4 _ "workspace/\n" e4]

/-- C19. The function `runInit` leaves every path that exists as it is, in
particular an existing planner prompt, reviewer prompt or ignore file keeps
its content; and running it again on the state it leaves gives the same result
and the same state. -/
theorem init_keeps_files_and_is_idempotent (fs : FS) :
    (∀ p, (fs p).isSome → (runInit fs).2 p = fs p) ∧
    (∀ p ∈ [plannerPrompt, reviewerPrompt, gitignorePath], ∀ content,
      fs p = some (.file content) → (runInit fs).2 p = some (.file content)) ∧
    runInit (runInit fs).2 = runInit fs ∧
    (runInit (runInit fs).2).2 = (runInit fs).2 := by
  refine ⟨runInit_keeps fs, fun p _ content hp => ?_, runInit_idem fs, ?_⟩
  · rw [runInit_keeps fs p (by rw [hp]; rfl), hp]
  · rw [runInit_idem]

set_option maxRecDepth 100000 in
/-- C19 (witness). On a working directory with a customised planner prompt,
`runInit` succeeds, keeps that prompt, and writes the default reviewer prompt
and the ignore file; on an empty working directory it writes all three. -/
theorem init_keeps_files_and_is_idempotent_witness :
    (runInit customPromptFS).1 = .ok () ∧
    (runInit customPromptFS).2 plannerPrompt = some (.file "my planner prompt") ∧
    (runInit customPromptFS).2 reviewerPrompt = some (.file defaultReviewerPrompt) ∧
    (runInit customPromptFS).2 gitignorePath = some (.file "workspace/\n") ∧
    (runInit emptyFS).2 plannerPrompt = some (.file defaultPlannerPrompt) ∧
    (runInit emptyFS).2 workspace = some .dir ∧
    (runInit (runInit customPromptFS).2).2 = (runInit customPromptFS).2 :=
  ⟨by decide,
    (init_keeps_files_and_is_idempotent customPromptFS).2.1 plannerPrompt (by decide) _
      (by decide),
    by decide, by decide, by decide, by decide,
    (init_keeps_files_and_is_idempotent customPromptFS).2.2.2⟩

end LlmDuet
